import Mathlib

/-!
Verification development for the SentiX sentiment scoring and decision
engine.  Python floats are modelled as exact rationals (`ℚ`); Python
dictionaries with optional keys become structures with `Option` fields;
fallible operations return `Option`/`Except`.  Each definition is a direct
translation of the correspondingly named function of the repository
(`src/agents.py`, `src/crawler_news.py`, `src/cleaner.py`, `src/utils.py`,
`src/cli.py`).
-/

namespace SentiX

/-- Python `x or default` for an optional float field: the default is used
when the key is missing / `None` (here `none`) or when the value is falsy
(a float is falsy exactly when it equals `0`). -/
def pyOrQ (v : Option ℚ) (d : ℚ) : ℚ :=
  match v with
  | none => d
  | some x => if x = 0 then d else x

/-- `utils.clamp`: `max(lo, min(hi, v))`. -/
def clamp (v lo hi : ℚ) : ℚ := max lo (min hi v)

/-- `utils.sentiment_band`: coarse bull/bear/neutral label with thresholds
`±0.2`. -/
def sentiment_band (v : ℚ) : String :=
  if v > 1/5 then "bull"
  else if v < -(1/5) then "bear"
  else "neutral"

/-- `agents.AgentScore` dataclass. -/
structure AgentScore where
  index : ℚ
  band : String
  confidence : ℚ
  mode : String
  rationale : List String
deriving DecidableEq, Repr

/-- An analyzed news item as consumed by `agents.sentiment_from_analyzed`:
the dictionary keys that function reads.  `none` models a missing key or a
`None` value; non-numeric values for `weight` (which Python maps to `1.0`
through `try/except`) are not represented. -/
structure AnalyzedItem where
  title : String
  sentiment : Option String
  confidence : Option ℚ
  weight : Option ℚ
deriving DecidableEq, Repr

/-- The clamped effective weight a single item gets inside
`sentiment_from_analyzed` / `_avg_conf`:
`float(max(0.0, min(1.0, float(it.get("weight", 1.0) or 1.0))))`. -/
def effWeight (it : AnalyzedItem) : ℚ :=
  max 0 (min 1 (pyOrQ it.weight 1))

/-- One loop iteration of `agents._avg_conf`: the `(weight, confidence)`
pair appended for an item, or nothing when the item is skipped
(`confidence is None`, or clamped weight `≤ 0`). -/
def avgPair (it : AnalyzedItem) : Option (ℚ × ℚ) :=
  match it.confidence with
  | none => none
  | some _ =>
    let w := effWeight it
    if w ≤ 0 then none else some (w, pyOrQ it.confidence 0)

/-- `agents._avg_conf`: weighted mean of item confidences, skipping items
whose `confidence` is `None` and items whose clamped weight is `≤ 0`;
`0.55` when nothing remains. -/
def avg_conf (items : List AnalyzedItem) : ℚ :=
  let pairs := items.filterMap avgPair
  if pairs = [] then 11/20
  else
    let tot := (pairs.map Prod.fst).sum
    if tot ≤ 0 then 11/20
    else (pairs.map (fun p => p.2 * p.1)).sum / tot

/-- One step of the accumulation loop of `sentiment_from_analyzed`:
state is `(bull, bear, total_w)`. -/
def sfaStep (acc : ℚ × ℚ × ℚ) (it : AnalyzedItem) : ℚ × ℚ × ℚ :=
  let w := effWeight it
  if w ≤ 0 then acc
  else
    let conf := pyOrQ it.confidence 0
    if it.sentiment = some "bull" then (acc.1 + w * conf, acc.2.1, acc.2.2 + w)
    else if it.sentiment = some "bear" then (acc.1, acc.2.1 + w * conf, acc.2.2 + w)
    else (acc.1, acc.2.1, acc.2.2 + w)

/-- `agents.sentiment_from_analyzed`: returns
`(index, (bull_count, bear_count, neutral_count), confidence)`. -/
def sentiment_from_analyzed (items : List AnalyzedItem) :
    ℚ × (ℕ × ℕ × ℕ) × ℚ :=
  if items = [] then (0, (0, 0, 0), 11/20)
  else
    let acc := items.foldl sfaStep (0, 0, 0)
    if acc.2.2 ≤ 0 then (0, (0, 0, 0), 11/20)
    else
      let idx := max (-1) (min 1 ((acc.1 - acc.2.1) / acc.2.2))
      let counts := ((items.filter (fun it => it.sentiment = some "bull")).length,
        (items.filter (fun it => it.sentiment = some "bear")).length,
        (items.filter (fun it => it.sentiment = some "neutral")).length)
      (idx, counts, clamp (avg_conf items) (1/2) (19/20))

/-- The `{macro, symbol, market}` weight dictionary read by
`agents.combine_final` (`weights.get(k, default)`: a present `0` stays `0`,
hence plain `Option.getD`, not `pyOrQ`). -/
structure WeightsCfg where
  macroWeight : Option ℚ
  symbolWeight : Option ℚ
  marketWeight : Option ℚ
deriving DecidableEq, Repr

/-- `agents.combine_final`.  (`macro` is a Lean keyword, hence the binder
name `macroScore`.) -/
def combine_final (macroScore symbol_news : AgentScore) (market : Option AgentScore)
    (weights : WeightsCfg) : AgentScore :=
  let wm := weights.macroWeight.getD (3/10)
  let ws := weights.symbolWeight.getD (3/10)
  let wk := weights.marketWeight.getD (2/5)
  match market with
  | none =>
    let s := wm + ws
    let wm2 := if s ≤ 0 then 1/2 else wm / s
    let ws2 := if s ≤ 0 then 1/2 else ws / s
    let idx := clamp (wm2 * macroScore.index + ws2 * symbol_news.index) (-1) 1
    let conf := clamp (1/2 + 1/2 * (macroScore.confidence * wm2 + symbol_news.confidence * ws2))
      (1/2) (9/10)
    { index := idx, band := sentiment_band idx, confidence := conf,
      mode := "heuristic", rationale := ["休市：最终分数未计算（仅展示宏观/品种分）"] }
  | some mk =>
    let idx := clamp (wm * macroScore.index + ws * symbol_news.index + wk * mk.index) (-1) 1
    let conf := clamp (macroScore.confidence * wm + symbol_news.confidence * ws + mk.confidence * wk)
      (1/2) (19/20)
    { index := idx, band := sentiment_band idx, confidence := conf,
      mode := "heuristic", rationale := ["宏观+品种新闻+市场数据加权"] }

/-- A price bar dictionary (`PriceBar`) as read by the market/plan code. -/
structure Bar where
  date : Option String
  «open» : Option ℚ
  high : Option ℚ
  low : Option ℚ
  close : Option ℚ
  volume : Option ℚ
  open_interest : Option ℚ
deriving DecidableEq, Repr

/-- Last `n` elements of a list (`xs[-n:]`). -/
def lastN (n : ℕ) (xs : List ℚ) : List ℚ := xs.drop (xs.length - n)

/-- `agents._ma`: mean of the last `min(n, len)` values (at least one). -/
def ma (xs : List ℚ) (n : ℕ) : ℚ :=
  if xs = [] then 0
  else
    let m := max 1 (min n xs.length)
    (lastN m xs).sum / m

/-- True ranges of consecutive bar pairs, as accumulated by `agents._atr14`. -/
def trueRanges : List Bar → List ℚ
  | [] => []
  | [_] => []
  | a :: b :: rest =>
    let h := pyOrQ b.high 0
    let l := pyOrQ b.low 0
    let pc := pyOrQ a.close 0
    max (h - l) (max |h - pc| |l - pc|) :: trueRanges (b :: rest)

/-- `agents._atr14`: mean of the last `min(14, len-1)` true ranges. -/
def atr14 (kline : List Bar) : ℚ :=
  if kline.length < 2 then 0
  else
    let trs := trueRanges kline
    if trs = [] then 0
    else
      let n := min 14 trs.length
      (lastN n trs).sum / n

/-- The symbol dictionary fields read by `agents.trade_plan`. -/
structure SymbolInfo where
  id : Option String
  name : Option String
deriving DecidableEq, Repr

/-- One horizon entry of a trade plan (`mk` inside `agents.trade_plan`).
The two fixed `triggers` strings are constant and omitted. -/
structure HorizonPlan where
  direction : String
  entry_zone : ℚ × ℚ
  stop : Option ℚ
  target1 : Option ℚ
  target2 : Option ℚ
  position : String
deriving DecidableEq, Repr

/-- Result of `agents.trade_plan`. -/
inductive TradePlanResult where
  | unavailable (reason : String)
  | ok (asof : String) (symbol : SymbolInfo)
      (short_term swing mid_term : HorizonPlan)
deriving DecidableEq, Repr

/-- Round half to even (Python `round` tie-breaking on an exact value). -/
def roundHalfEven (q : ℚ) : ℤ :=
  let f := ⌊q⌋
  let frac := q - f
  if frac < 1/2 then f
  else if frac > 1/2 then f + 1
  else if f % 2 = 0 then f else f + 1

/-- Python `round(x, 2)` on the exact rational value. -/
def pyRound2 (q : ℚ) : ℚ := (roundHalfEven (q * 100) : ℚ) / 100

/-- The per-horizon constructor `mk(mult_entry, mult_stop, mult_t1, mult_t2)`
inside `agents.trade_plan`. -/
def tradePlanMk (close atr : ℚ) (direction : String) (conf : ℚ)
    (me ms m1 m2 : ℚ) : HorizonPlan :=
  let entryLo := close - atr * me
  let entryHi := close + atr * me
  let stop : Option ℚ :=
    if direction = "long" then some (close - atr * ms)
    else if direction = "short" then some (close + atr * ms)
    else none
  let t1 : Option ℚ :=
    if direction = "long" then some (close + atr * m1)
    else if direction = "short" then some (close - atr * m1)
    else none
  let t2 : Option ℚ :=
    if direction = "long" then some (close + atr * m2)
    else if direction = "short" then some (close - atr * m2)
    else none
  let pos := if conf < 13/20 then "轻仓"
    else if conf < 4/5 then "中等仓位" else "偏重仓位"
  { direction := direction,
    entry_zone := (pyRound2 entryLo, pyRound2 entryHi),
    stop := stop.map pyRound2,
    target1 := t1.map pyRound2,
    target2 := t2.map pyRound2,
    position := pos }

/-- `agents.trade_plan`. -/
def trade_plan (symbol : SymbolInfo) (kline : List Bar)
    (final_score : AgentScore) : TradePlanResult :=
  match kline.getLast? with
  | none => .unavailable "missing kline"
  | some last =>
    let close := pyOrQ last.close 0
    let atr := atr14 kline
    if close ≤ 0 ∨ atr ≤ 0 then .unavailable "insufficient kline"
    else
      let direction :=
        if final_score.index > 1/5 then "long"
        else if final_score.index < -(1/5) then "short"
        else "neutral"
      .ok ((last.date).getD "") symbol
        (tradePlanMk close atr direction final_score.confidence (1/2) (3/2) 1 2)
        (tradePlanMk close atr direction final_score.confidence 1 (5/2) 2 4)
        (tradePlanMk close atr direction final_score.confidence (3/2) (7/2) 3 6)

/-! ## Dates (`crawler_news._parse_published_date` and friends) -/

/-- A calendar date as produced by Python's `datetime.date`. -/
structure Date where
  year : ℕ
  month : ℕ
  day : ℕ
deriving DecidableEq, Repr

/-- Gregorian leap-year test. -/
def isLeapYear (y : ℕ) : Bool :=
  y % 4 = 0 && (y % 100 ≠ 0 || y % 400 = 0)

/-- Number of days of month `m` (1-based) in year `y`. -/
def daysInMonth (y m : ℕ) : ℕ :=
  if m = 2 then (if isLeapYear y then 29 else 28)
  else if m = 4 ∨ m = 6 ∨ m = 9 ∨ m = 11 then 30
  else if 1 ≤ m ∧ m ≤ 12 then 31
  else 0

/-- Days in year `y` strictly before month `m`. -/
def daysBeforeMonth (y m : ℕ) : ℕ :=
  (List.range (m - 1)).foldl (fun a i => a + daysInMonth y (i + 1)) 0

/-- Proleptic-Gregorian ordinal of a date (Python `date.toordinal`):
day 1 is 0001-01-01. -/
def Date.toOrdinal (d : Date) : ℕ :=
  let n := d.year - 1
  365 * n + n / 4 + n / 400 - n / 100 + daysBeforeMonth d.year d.month + d.day

/-- Numeric value of a decimal digit character. -/
def digitVal (c : Char) : Option ℕ :=
  if c.isDigit then some (c.toNat - 48) else none

/-- `date.fromisoformat` on a 10-character `YYYY-MM-DD` string (the guard
`len(s)==10 and s[4]=='-' and s[7]=='-'` of `_parse_published_date`,
followed by full validation). -/
def parseISODate (s : String) : Option Date :=
  match s.toList with
  | [y1, y2, y3, y4, h1, m1, m2, h2, d1, d2] =>
    if h1 = '-' ∧ h2 = '-' then
      match digitVal y1, digitVal y2, digitVal y3, digitVal y4,
        digitVal m1, digitVal m2, digitVal d1, digitVal d2 with
      | some a, some b, some c, some d, some e, some f, some g, some h =>
        let y := 1000 * a + 100 * b + 10 * c + d
        let mo := 10 * e + f
        let da := 10 * g + h
        if 1 ≤ y ∧ 1 ≤ mo ∧ mo ≤ 12 ∧ 1 ≤ da ∧ da ≤ daysInMonth y mo then
          some ⟨y, mo, da⟩
        else none
      | _, _, _, _, _, _, _, _ => none
    else none
  | _ => none

/-- `crawler_news._parse_published_date`.  The source first tries the plain
ISO `YYYY-MM-DD` branch (modelled here exactly) and then falls back to
RFC-2822 and ISO-datetime parsing; those fallback formats are not modelled
— every `published_at` value appearing in this development is either a
plain ISO date or a string none of the source's parsers accepts (returning
`None` there as `none` here). -/
def parse_published_date (s : String) : Option Date :=
  parseISODate s

/-! ## Text normalisation (`cleaner.clean_text`, `str.lower`) -/

/-- ASCII whitespace as matched by Python's `\s` / `str.strip` (the
non-ASCII Unicode whitespace characters also matched by Python do not
occur in any input of this development). -/
def isPySpace (c : Char) : Bool :=
  c = ' ' || c = '\t' || c = '\n' || c = '\r' || c.toNat = 11 || c.toNat = 12

/-- `str.strip` on a character list. -/
def pyStripChars (cs : List Char) : List Char :=
  ((cs.dropWhile isPySpace).reverse.dropWhile isPySpace).reverse

/-- `str.strip`. -/
def pyStrip (s : String) : String := String.mk (pyStripChars s.toList)

/-- Replace each maximal whitespace run by a single space
(the `re.sub(r"\s+", " ", t)` step of `clean_text`). -/
def collapseWs (cs : List Char) : List Char :=
  cs.foldr (fun c acc =>
    if isPySpace c then
      match acc with
      | ' ' :: _ => acc
      | _ => ' ' :: acc
    else c :: acc) []

/-- `cleaner.clean_text`: strip, then collapse whitespace runs. -/
def clean_text (s : String) : String :=
  String.mk (collapseWs (pyStripChars s.toList))

/-- `str.lower`.  Lean's `Char.toLower` lowers the ASCII range only; all
cased characters appearing in this development are ASCII. -/
def pyLower (s : String) : String := String.mk (s.toList.map Char.toLower)

/-- Python's substring test `pat in t`. -/
def strContains (t pat : String) : Bool :=
  t.toList.tails.any (fun suf => pat.toList.isPrefixOf suf)

/-! ## Topic supersession (`crawler_news`) -/

/-- `crawler_news._classify_supersede_topic`: classify a headline into
`(topic_key, direction)` for the hard-coded policy-rate and tariff topics;
ambiguous (both directions) or unclassified titles give `none`.  When the
title matches rate markers but the rate-direction test is ambiguous the
source falls through to the tariff check, which is mirrored here. -/
def classify_supersede_topic (title : String) : Option (String × ℤ) :=
  let t := pyLower (clean_text title)
  if t = "" then none
  else
    let has := fun (k : String) => strContains t k
    let hasRate := ["利率", "rates", "rate ", "rate-", "rate", "加息", "降息", "升息"].any has
    let rateResult : Option (String × ℤ) :=
      if hasRate then
        let up := ["加息", "升息", "上调", "提高", "raise", "hike", "tighten"].any has
        let down := ["降息", "下调", "降低", "cut", "lower", "ease"].any has
        if up ≠ down then
          let dir : ℤ := if up then 1 else -1
          let entity :=
            if ["美联储", "fed", "fomc"].any has then "fed"
            else if ["欧洲央行", "ecb"].any has then "ecb"
            else if ["人民银行", "央行", "pboc"].any has then "pboc"
            else "rate"
          some (entity ++ ":policy_rate", dir)
        else none
      else none
    match rateResult with
    | some r => some r
    | none =>
      if ["关税", "tariff"].any has then
        let up := ["加征", "上调", "提高", "raise", "impose", "increase"].any has
        let down := ["取消", "下调", "降低", "reduce", "cut", "suspend", "roll back"].any has
        if up ≠ down then some ("global:tariff", if up then (1 : ℤ) else -1)
        else none
      else none

/-- A news item as handled by the recency/supersession filter: the
dictionary keys `_annotate_and_rank_items` and `_apply_supersede` read or
write.  Keys the filter merely copies are behaviourally inert and omitted. -/
structure NItem where
  title : String
  published_at : String
  weight : Option ℚ
  age_days : Option ℤ
  superseded : Option Bool
deriving DecidableEq, Repr

/-- Configuration snapshot produced by
`crawler_news._get_news_weighting_params`. -/
structure WeightParams where
  half_life_days : ℕ
  min_weight : ℚ
  fresh_boost_days : ℕ
  fresh_boost : ℚ
  supersede_enabled : Bool
deriving DecidableEq, Repr

/-- `crawler_news._get_news_max_age_days`: default 30, floored at 0,
capped at 365 (`none` models a missing or non-integer config value). -/
def get_news_max_age_days (v : Option ℤ) : ℕ :=
  let days := v.getD 30
  if days < 0 then 0 else (min days 365).toNat

/-- `crawler_news._get_news_weighting_half_life_days`: explicit value
clamped to `[1, 365]`, otherwise derived as `round(max_age_days / 3)`
(at least 1, and 10 when `max_age_days = 0`). -/
def get_half_life_days (half maxAge : Option ℤ) : ℕ :=
  match half with
  | some d => (max 1 (min d 365)).toNat
  | none =>
    let ag := get_news_max_age_days maxAge
    if ag = 0 then 10
    else (max 1 (min (roundHalfEven ((ag : ℚ) / 3)) 365)).toNat

/-- `crawler_news._get_news_weighting_params`: the numeric clamping of the
raw config values (the dictionary plumbing around it is elided; `none`
models a missing or unparseable value, and the Python `or`-defaults are
rendered with `pyOrQ`). -/
def WeightParams.ofRaw (half maxAge : Option ℤ) (minW : Option ℚ)
    (fbd : Option ℤ) (fb : Option ℚ) (supersede : Bool) : WeightParams :=
  let mw := max 0 (min (pyOrQ minW (1/2000)) 1)
  let fbdRaw : ℤ := match fbd with
    | none => 1
    | some x => if x = 0 then 1 else x
  let fbdClamped := (max 0 (min fbdRaw 30)).toNat
  let boost := max 1 (min (pyOrQ fb (5/4)) 3)
  { half_life_days := get_half_life_days half maxAge,
    min_weight := mw,
    fresh_boost_days := fbdClamped,
    fresh_boost := boost,
    supersede_enabled := supersede }

/-- `crawler_news._compute_recency_weight`.  `powHalf age half` abstracts
the float expression `math.pow(0.5, float(age) / max(1.0, half))`, a
transcendental function of the two integers; theorems take the facts they
need about it (positivity, being `≤ 1`, value `1` at age 0) as hypotheses,
all true of the real function, and concrete evaluations instantiate it
with `halfPowInt` below. -/
def compute_recency_weight (p : WeightParams) (powHalf : ℕ → ℕ → ℚ)
    (published_at date : String) : ℚ × Option ℤ :=
  match parseISODate date with
  | none => (1, none)
  | some target =>
    match parse_published_date published_at with
    | none => (1/4, none)
    | some pub =>
      let age : ℕ := ((target.toOrdinal : ℤ) - (pub.toOrdinal : ℤ)).toNat
      let w0 := powHalf age p.half_life_days
      let w1 := if 0 < p.fresh_boost_days ∧ age ≤ p.fresh_boost_days then
          w0 * p.fresh_boost
        else w0
      (min 1 (max p.min_weight w1), some (age : ℤ))

/-- Exact value of `math.pow(0.5, age / max(1, half))` whenever
`max 1 half` divides `age` — in particular exact for `half = 1`, the
configuration used by every concrete evaluation in this development. -/
def halfPowInt (age half : ℕ) : ℚ :=
  (1/2 : ℚ) ^ (age / max 1 half)

/-- Lookup in the per-topic association list modelling the Python dicts
`latest_pub` / `latest_dir` of `_apply_supersede` (value: latest ordinal
and its direction). -/
def alistLookup (k : String) : List (String × ℕ × ℤ) → Option (ℕ × ℤ)
  | [] => none
  | (k', v) :: rest => if k = k' then some v else alistLookup k rest

/-- Insert-or-replace into the per-topic association list. -/
def alistUpd (k : String) (v : ℕ × ℤ) :
    List (String × ℕ × ℤ) → List (String × ℕ × ℤ)
  | [] => [(k, v)]
  | (k', v') :: rest =>
    if k = k' then (k, v) :: rest else (k', v') :: alistUpd k v rest

/-- One iteration of the first loop of `_apply_supersede`: record the item
as the topic's latest when its parseable publish date is strictly newer
than the recorded one. -/
def latestStep (m : List (String × ℕ × ℤ)) (it : NItem) :
    List (String × ℕ × ℤ) :=
  match classify_supersede_topic it.title with
  | none => m
  | some (topic, dir) =>
    match parse_published_date it.published_at with
    | none => m
    | some pub =>
      match alistLookup topic m with
      | none => alistUpd topic (pub.toOrdinal, dir) m
      | some (prev, _) =>
        if pub.toOrdinal > prev then alistUpd topic (pub.toOrdinal, dir) m
        else m

/-- The `latest_pub` / `latest_dir` maps after the first loop of
`_apply_supersede`. -/
def buildLatest (items : List NItem) : List (String × ℕ × ℤ) :=
  items.foldl latestStep []

/-- The second loop of `_apply_supersede`, per item: an earlier record on a
topic whose direction differs from the latest's direction gets weight `0`
and `superseded := true`; every other item passes through unchanged. -/
def supersedeMark (m : List (String × ℕ × ℤ)) (it : NItem) : NItem :=
  match classify_supersede_topic it.title with
  | none => it
  | some (topic, dir) =>
    match parse_published_date it.published_at with
    | none => it
    | some pub =>
      match alistLookup topic m with
      | none => it
      | some (lp, ld) =>
        if pub.toOrdinal < lp ∧ dir ≠ ld then
          { it with weight := some 0, superseded := some true }
        else it

/-- `crawler_news._apply_supersede`. -/
def apply_supersede (p : WeightParams) (items : List NItem) : List NItem :=
  if ¬ p.supersede_enabled then items
  else
    let m := buildLatest items
    if m = [] then items
    else items.map (supersedeMark m)

/-- The annotation step of `_annotate_and_rank_items` for one item:
`it2["weight"] = float(it2.get("weight") or w)` (an existing nonzero
weight wins over the freshly computed one) and `age_days` is set only when
the recency computation produced one. -/
def annotateItem (p : WeightParams) (powHalf : ℕ → ℕ → ℚ) (date : String)
    (it : NItem) : NItem :=
  let r := compute_recency_weight p powHalf it.published_at date
  let it2 := { it with weight := some (pyOrQ it.weight r.1) }
  match r.2 with
  | some a => { it2 with age_days := some a }
  | none => it2

/-- Sort key of `_annotate_and_rank_items`: higher weight first, then
newer first, unknown age (`10^9`) last. -/
def sortKey (it : NItem) : ℚ × ℤ :=
  (-(pyOrQ it.weight 0), (it.age_days).getD (10 ^ 9))

/-- Boolean `≤` on sort keys (lexicographic, ascending), the comparison
under Python's `list.sort(key=_sort_key)`. -/
def keyLe (a b : NItem) : Bool :=
  decide ((sortKey a).1 < (sortKey b).1) ||
    (decide ((sortKey a).1 = (sortKey b).1) && decide ((sortKey a).2 ≤ (sortKey b).2))

/-- Stable insertion before the first element not strictly smaller — the
insertion step of a stable ascending sort. -/
def pyInsert {α : Type} (le : α → α → Bool) (x : α) : List α → List α
  | [] => [x]
  | y :: ys => if le x y then x :: y :: ys else y :: pyInsert le x ys

/-- Stable ascending sort, modelling Python's stable `list.sort`. -/
def pySort {α : Type} (le : α → α → Bool) : List α → List α
  | [] => []
  | x :: xs => pyInsert le x (pySort le xs)

/-- `crawler_news._annotate_and_rank_items`: annotate weights/ages, apply
supersession, drop non-positive weights, sort by `(−weight, age)`,
truncate to `max_items`. -/
def annotate_and_rank_items (p : WeightParams) (powHalf : ℕ → ℕ → ℚ)
    (items : List NItem) (date : String) (max_items : ℤ) : List NItem :=
  if items = [] then []
  else
    let mi := (max 0 max_items).toNat
    if mi = 0 then []
    else
      let tmp := items.map (annotateItem p powHalf date)
      let tmp2 := apply_supersede p tmp
      let tmp3 := tmp2.filter (fun it => decide (0 < pyOrQ it.weight 0))
      (pySort keyLe tmp3).take mi

/-! ## LLM responses (`agents._deepseek_chat_json` results) and agents -/

/-- A parsed JSON value, the possible result of `_deepseek_chat_json`
(whose `None` outcome — network failure or non-JSON content — is the
`none` of an `Option JVal`). -/
inductive JVal where
  | null
  | bool (b : Bool)
  | num (q : ℚ)
  | str (s : String)
  | arr (xs : List JVal)
  | obj (kvs : List (String × JVal))

/-- Python truthiness of a JSON value. -/
def JVal.truthy : JVal → Bool
  | .null => false
  | .bool b => b
  | .num q => decide (q ≠ 0)
  | .str s => decide (s ≠ "")
  | .arr xs => !xs.isEmpty
  | .obj kvs => !kvs.isEmpty

/-- `j.get(k)` on a JSON object body (keys are unique). -/
def jLookup : List (String × JVal) → String → Option JVal
  | [], _ => none
  | (k', v) :: rest, k => if k' = k then some v else jLookup rest k

/-- Python `x or default` on an optional JSON value. -/
def pyOrJ (v : Option JVal) (d : JVal) : JVal :=
  match v with
  | none => d
  | some x => if x.truthy then x else d

/-- Digits-to-number accumulator. -/
def digitsToNat (cs : List Char) : ℚ :=
  cs.foldl (fun a c => a * 10 + ((c.toNat - 48 : ℕ) : ℚ)) 0

/-- A plain decimal literal accepted by Python's `float(str)`: optional
sign, digits, optional fractional part.  (Python additionally accepts
exponents, `inf`/`nan`, underscores and surrounding whitespace; no input
of this development uses those forms, and they never arise from JSON
numbers.) -/
def parseDecimal (s : String) : Option ℚ :=
  let go : List Char → Option ℚ := fun cs =>
    let intPart := cs.takeWhile Char.isDigit
    let rest := cs.dropWhile Char.isDigit
    match rest with
    | [] => if intPart = [] then none else some (digitsToNat intPart)
    | '.' :: frac =>
      if frac.all Char.isDigit ∧ (intPart ≠ [] ∨ frac ≠ []) then
        some (digitsToNat intPart + digitsToNat frac / (10 ^ frac.length))
      else none
    | _ => none
  match s.toList with
  | '-' :: rest => (go rest).map (fun q => -q)
  | '+' :: rest => go rest
  | cs => go cs

/-- Python's `float(x)` on a JSON value: numbers and booleans convert,
numeric strings parse, everything else raises (`ValueError` for a
non-numeric string, `TypeError` for `None`/lists/objects). -/
def pyFloatE : JVal → Except String ℚ
  | .num q => .ok q
  | .bool b => .ok (if b then 1 else 0)
  | .str s =>
    match parseDecimal s with
    | some q => .ok q
    | none => .error "ValueError"
  | .null => .error "TypeError"
  | .arr _ => .error "TypeError"
  | .obj _ => .error "TypeError"

/-- Python's `str(x)` on a JSON value.  Rationale entries in this
development are always strings, where `str` is the identity; the renderings
of the other variants are simplified stand-ins (Python would print e.g.
`1.0` where this prints `1`), none of which any claim observes. -/
def pyStr : JVal → String
  | .str s => s
  | .null => "None"
  | .bool b => if b then "True" else "False"
  | .num q => toString q
  | .arr _ => "[...]"
  | .obj _ => "{...}"

/-! ### The rationale sanitizer of `market_agent_llm`

The source applies `re.sub(r"(?<!\\d)(-?\\d+(?:\.\\d+)?)(?!\\d)", "", s)`
— note the doubled backslashes inside a *raw* string: as a regex, `\\`
matches one literal backslash character and the following `d` matches the
letter `d`, so the pattern matches runs such as backslash-`d`-`d`, not
decimal digits.  Likewise `re.sub(r"\\s{2,}", " ", s)` matches a literal
backslash followed by two or more letters `s`.  The scanner below executes
those patterns operationally (leftmost, greedy; the `d+`-backtracking
corner, reachable only on inputs containing literal backslashes, is not
reproduced — no input here contains a backslash). -/

/-- Length of the leading run of the character `c`. -/
def charRun (c : Char) (cs : List Char) : ℕ :=
  (cs.takeWhile (fun x => x = c)).length

/-- The negative lookahead `(?!\\d)`: true when the remainder starts with a
literal backslash followed by `d`. -/
def lookaheadBackslashD : List Char → Bool
  | '\\' :: 'd' :: _ => true
  | _ => false

/-- Match the core `\\d+(?:\.\\d+)?(?!\\d)` of the number pattern at the
head of the list, returning the matched length. -/
def matchCore (cs : List Char) : Option ℕ :=
  match cs with
  | '\\' :: rest =>
    let k := charRun 'd' rest
    if k = 0 then none
    else
      let base := 1 + k
      let tl := rest.drop k
      let ext : Option ℕ :=
        match tl with
        | '\\' :: _ :: '\\' :: rest2 =>
          let m2 := charRun 'd' rest2
          if m2 = 0 then none else some (3 + m2)
        | _ => none
      match ext with
      | some e =>
        if lookaheadBackslashD (tl.drop e) then
          if lookaheadBackslashD tl then none else some base
        else some (base + e)
      | none => if lookaheadBackslashD tl then none else some base
  | _ => none

/-- Match the full `-?\\d+(?:\.\\d+)?(?!\\d)` at the head of the list. -/
def matchNumPat (cs : List Char) : Option ℕ :=
  match cs with
  | '-' :: rest => (matchCore rest).map (· + 1)
  | _ => matchCore cs

/-- Left-to-right scan of the first `re.sub` (deleting matches); `p2, p1`
are the previous two characters of the original string, for the negative
lookbehind `(?<!\\d)`. -/
def subNumGo : ℕ → Option Char → Option Char → List Char → List Char
  | 0, _, _, cs => cs
  | _ + 1, _, _, [] => []
  | fuel + 1, p2, p1, c :: rest =>
    let lbFail := p2 = some '\\' ∧ p1 = some 'd'
    match if lbFail then none else matchNumPat (c :: rest) with
    | some n =>
      let consumed := (c :: rest).take n
      let np1 := consumed.getLast?
      let np2 := if 2 ≤ n then (consumed.drop (n - 2)).head? else p1
      subNumGo fuel np2 np1 ((c :: rest).drop n)
    | none => c :: subNumGo fuel p1 (some c) rest

/-- The first `re.sub` of the sanitizer. -/
def subNumPattern (s : String) : String :=
  String.mk (subNumGo s.toList.length none none s.toList)

/-- The second `re.sub` (pattern `\\s{2,}`: a literal backslash followed by
two or more letters `s`, replaced by one space). -/
def subSpGo : ℕ → List Char → List Char
  | 0, cs => cs
  | _ + 1, [] => []
  | fuel + 1, '\\' :: rest =>
    let k := charRun 's' rest
    if 2 ≤ k then ' ' :: subSpGo fuel (rest.drop k)
    else '\\' :: subSpGo fuel rest
  | fuel + 1, c :: rest => c :: subSpGo fuel rest

/-- The second `re.sub` of the sanitizer. -/
def subSpacePattern (s : String) : String :=
  String.mk (subSpGo s.toList.length s.toList)

/-- One rationale line through the sanitizer:
`re.sub(num) |> re.sub(space) |> strip`. -/
def sanitizeLine (s : String) : String :=
  pyStrip (subSpacePattern (subNumPattern s))

/-- The whole sanitizer loop of `market_agent_llm` (empty results are
dropped, then `[:5]`). -/
def sanitizeLines (lines : List String) : List String :=
  (lines.filterMap (fun line =>
    let s := sanitizeLine line
    if s = "" then none else some s)).take 5

/-- The `rationale` extraction shared by the LLM branches:
`rat = j.get("rationale") or []; if not isinstance(rat, list): rat = [];
[str(x) for x in rat][:5]`. -/
def ratOfResp (kvs : List (String × JVal)) : List String :=
  let rv := pyOrJ (jLookup kvs "rationale") (.arr [])
  let xs := match rv with
    | .arr l => l
    | _ => []
  (xs.map pyStr).take 5

/-- The heuristic fallback body shared by `macro_agent` and
`symbol_news_agent` (their final four lines). -/
def heuristicAgent (news : List AnalyzedItem) : AgentScore :=
  let r := sentiment_from_analyzed news
  let rat := if news ≠ [] then
      (news.take 3).filterMap (fun it => if it.title ≠ "" then some it.title else none)
    else []
  { index := r.1, band := sentiment_band r.1, confidence := r.2.2,
    mode := "heuristic", rationale := rat }

/-- `agents.macro_agent`.  `enabled` is `_deepseek_enabled(cfg)` and
`resp` the result of `_deepseek_chat_json` (`none`: call failed or content
was not JSON).  The two `float(...)` conversions of the LLM branch are
*not* guarded by any `try/except` in the source, so a response whose
`index`/`confidence` values do not convert raises — modelled by the
`Except` result. -/
def macro_agent (enabled : Bool) (resp : Option JVal)
    (news : List AnalyzedItem) : Except String AgentScore :=
  if enabled ∧ news ≠ [] then
    match resp with
    | some (JVal.obj kvs) =>
      if (jLookup kvs "index").isSome then
        match pyFloatE (pyOrJ (jLookup kvs "index") (.num 0)) with
        | .error e => .error e
        | .ok idx0 =>
          match pyFloatE (pyOrJ (jLookup kvs "confidence") (.num (11/20))) with
          | .error e => .error e
          | .ok conf0 =>
            let idx := max (-1) (min 1 idx0)
            let conf := clamp conf0 (1/2) (19/20)
            .ok { index := idx, band := sentiment_band idx, confidence := conf,
                  mode := "llm", rationale := ratOfResp kvs }
      else .ok (heuristicAgent news)
    | _ => .ok (heuristicAgent news)
  else .ok (heuristicAgent news)

/-- `agents.symbol_news_agent`: its body is line-for-line the logic of
`macro_agent` (only prompt text differs, which has no behavioural
content here). -/
def symbol_news_agent (enabled : Bool) (resp : Option JVal)
    (news : List AnalyzedItem) : Except String AgentScore :=
  macro_agent enabled resp news

/-- The bar dates set `{x.get("date") for x in kline if x.get("date")}`. -/
def klineDates (kline : List Bar) : List String :=
  (kline.filterMap (fun x => x.date)).filter (fun d => d ≠ "")

/-- The close series `[float(x.get("close") or 0.0) for x in kline if
x.get("close") is not None]`. -/
def klineCloses (kline : List Bar) : List ℚ :=
  (kline.filter (fun x => x.close ≠ none)).map (fun x => pyOrQ x.close 0)

/-- The volume series, same pattern as the closes. -/
def klineVols (kline : List Bar) : List ℚ :=
  (kline.filter (fun x => x.volume ≠ none)).map (fun x => pyOrQ x.volume 0)

/-- Fixed-point rendering with two decimals, standing for Python's
`f"{x:.2f}"` on the exact value. -/
def fmt2 (q : ℚ) : String :=
  let r := roundHalfEven (q * 100)
  let sign := if r < 0 then "-" else ""
  let n := r.natAbs
  let frac := n % 100
  let fracStr := if frac < 10 then "0" ++ toString frac else toString frac
  sign ++ toString (n / 100) ++ "." ++ fracStr

/-- `agents.market_agent` (pure technical heuristic). -/
def market_agent (kline : List Bar) (date : String) : Option AgentScore :=
  if date ∉ klineDates kline then none
  else
    let closes := klineCloses kline
    let vols := klineVols kline
    if closes.length < 10 then
      some { index := 0, band := "neutral", confidence := 11/20,
             mode := "heuristic", rationale := ["K线数据不足"] }
    else
      let c := closes.getLastD 0
      let ma20 := ma closes 20
      let ma60 := ma closes 60
      let trend :=
        (if ma20 ≠ 0 ∧ ma60 ≠ 0 then (if ma20 > ma60 then (1 : ℚ)/2 else -(1/2)) else 0) +
        (if ma20 ≠ 0 then (if c > ma20 then (1 : ℚ)/2 else -(1/2)) else 0)
      let v := if vols ≠ [] then vols.getLastD 0 else 0
      let vma20 := if vols ≠ [] then ma vols 20 else 0
      let volBoost := if vma20 > 0 then clamp (v / vma20 - 1) (-(1/2)) (1/2) else 0
      let idx := clamp (trend + 1/2 * volBoost) (-1) 1
      let atr := atr14 kline
      let conf1 : ℚ := if c > 0 ∧ atr > 0 then 3/5 - clamp (atr / c * 10) 0 (1/5) else 3/5
      let conf := clamp conf1 (1/2) (9/10)
      let rat := ["收盘 " ++ fmt2 c ++ "，MA20 " ++ fmt2 ma20 ++ "，MA60 " ++ fmt2 ma60,
        if vma20 ≠ 0 then "成交量/20日均量 " ++ fmt2 (v / vma20) else "成交量均值不足"]
      some { index := idx, band := sentiment_band idx, confidence := conf,
             mode := "heuristic", rationale := rat }

/-- The fundamentals fields `market_agent_llm` reads (`status`, `asof`;
the `signals` dictionary only feeds the prompt text).  A missing/non-dict
fundamentals argument becomes `{"status": "missing", "asof": ""}`. -/
structure Fund where
  status : String
  asof : String
deriving DecidableEq, Repr

/-- `agents.market_agent_llm`.  Unlike `macro_agent`, its float
conversions sit inside `try/except` and every malformed response path
returns `None` (the heuristic fallback is chosen by the caller). -/
def market_agent_llm (enabled : Bool) (resp : Option JVal)
    (kline : List Bar) (date : String) (fund : Option Fund) :
    Option AgentScore :=
  if ¬ enabled then none
  else if date ∉ klineDates kline then none
  else
    let closes := klineCloses kline
    if closes.length < 10 then
      some { index := 0, band := "neutral", confidence := 11/20,
             mode := "heuristic", rationale := ["K线数据不足"] }
    else
      let f := fund.getD { status := "missing", asof := "" }
      match resp with
      | some (JVal.obj kvs) =>
        if (jLookup kvs "index").isSome then
          match pyFloatE (pyOrJ (jLookup kvs "index") (.num 0)),
            pyFloatE (pyOrJ (jLookup kvs "confidence") (.num (11/20))) with
          | .ok idx0, .ok conf0 =>
            let idx := max (-1) (min 1 idx0)
            let conf1 := clamp conf0 (1/2) (19/20)
            let rat2 := sanitizeLines (ratOfResp kvs)
            let conf2 := if pyLower f.status ≠ "ok" then min conf1 (3/4) else conf1
            let fasof := pyStrip f.asof
            let conf3 := if fasof ≠ "" ∧ fasof ≠ date then min conf2 (18/25) else conf2
            some { index := idx, band := sentiment_band idx, confidence := conf3,
                   mode := "llm", rationale := rat2 }
          | _, _ => none
        else none
      | _ => none

/-! ## The pipeline dispatch of `cli.cmd_update_data` -/

/-- The `status` fields `cmd_update_data` writes for the market, final and
plan payloads of one symbol-day, plus the fused score / plan it computes
(only in the `ok` case). -/
structure DayOut where
  market_status : String
  final_status : String
  plan_status : String
  finalScore : Option AgentScore
  plan : Option TradePlanResult
deriving DecidableEq, Repr

/-- Lines 105–156 of `cli.cmd_update_data`: the market/final/plan dispatch on
the kline and the (possibly absent) market score.  `market` is
`market_agent_llm(...) or market_agent(...)` as computed by the caller. -/
def cmd_update_dispatch (sym : SymbolInfo) (kline : List Bar)
    (market : Option AgentScore) (macroScore symNews : AgentScore)
    (weights : WeightsCfg) : DayOut :=
  if kline = [] then
    { market_status := "unavailable", final_status := "unavailable",
      plan_status := "unavailable", finalScore := none, plan := none }
  else
    match market with
    | none =>
      { market_status := "skipped", final_status := "skipped",
        plan_status := "skipped", finalScore := none, plan := none }
    | some m =>
      let fin := combine_final macroScore symNews (some m) weights
      { market_status := "ok", final_status := "ok", plan_status := "ok",
        finalScore := some fin, plan := some (trade_plan sym kline fin) }

/-! ## Theorems -/

/-- Projection of the short-term horizon of a trade-plan result. -/
def shortTermOf : TradePlanResult → Option HorizonPlan
  | .ok _ _ st _ _ => some st
  | .unavailable _ => none

/-! ### Concrete inputs used by counterexamples and witnesses -/

/-- A flat bar: close 100, high = low = 100. -/
def exBar1 : Bar :=
  { date := some "2026-01-01", «open» := none, high := some 100,
    low := some 100, close := some 100, volume := none, open_interest := none }

/-- A bar with range 2 (high 101, low 99, close 100): the pair
`[exBar1, exBar2]` has ATR-14 exactly 2. -/
def exBar2 : Bar :=
  { date := some "2026-01-02", «open» := none, high := some 101,
    low := some 99, close := some 100, volume := none, open_interest := none }

/-- Two-bar kline with last close 100 and ATR-14 = 2. -/
def exKline : List Bar := [exBar1, exBar2]

/-- A concrete symbol. -/
def exSym : SymbolInfo := { id := some "au", name := some "gold" }

/-- A concrete long final score (index 0.5). -/
def exFinal : AgentScore :=
  { index := 1/2, band := "bull", confidence := 7/10, mode := "heuristic",
    rationale := [] }

/-- A concrete high-confidence agent score. -/
def exConf95 : AgentScore :=
  { index := 0, band := "neutral", confidence := 19/20, mode := "llm",
    rationale := [] }

/-- The weight dictionary with every key absent (all defaults used). -/
def exWeightsNone : WeightsCfg :=
  { macroWeight := none, symbolWeight := none, marketWeight := none }

/-- A concrete classified bullish news item. -/
def exItemBull : AnalyzedItem :=
  { title := "gold rally", sentiment := some "bull", confidence := some (4/5),
    weight := some 1 }

/-- A well-formed LLM response whose rationale line contains digits. -/
def exRespDigits : JVal :=
  JVal.obj [("index", JVal.num 1), ("confidence", JVal.num (7/10)),
    ("rationale", JVal.arr [JVal.str "up 5.2% today"])]

/-- An LLM response whose `index` value is a non-numeric string, so that
Python's `float()` raises on it. -/
def exRespBadIndex : JVal := JVal.obj [("index", JVal.str "abc")]

/-- One bar of the ten-bar kline below. -/
def mkDayBar (d : String) : Bar :=
  { date := some d, «open» := none, high := some 101, low := some 99,
    close := some 100, volume := some 10, open_interest := none }

/-- A ten-bar kline (enough closes for the non-degenerate market paths). -/
def exKline10 : List Bar :=
  [mkDayBar "2026-01-01", mkDayBar "2026-01-02", mkDayBar "2026-01-03",
    mkDayBar "2026-01-04", mkDayBar "2026-01-05", mkDayBar "2026-01-06",
    mkDayBar "2026-01-07", mkDayBar "2026-01-08", mkDayBar "2026-01-09",
    mkDayBar "2026-01-10"]

/-- The score the LLM agents produce from `exRespDigits`: the digits of the
rationale line survive. -/
def exScoreDigits : AgentScore :=
  { index := 1, band := "bull", confidence := 7/10, mode := "llm",
    rationale := ["up 5.2% today"] }

/-- The spec's ratio scenario: three bull items (weight 1, confidence
0.8) and one bear item (weight 1, confidence 0.4). -/
def ex4Items : List AnalyzedItem :=
  [{ title := "a", sentiment := some "bull", confidence := some (4/5), weight := some 1 },
   { title := "b", sentiment := some "bull", confidence := some (4/5), weight := some 1 },
   { title := "c", sentiment := some "bull", confidence := some (4/5), weight := some 1 },
   { title := "d", sentiment := some "bear", confidence := some (2/5), weight := some 1 }]

/-- A single bull item with an explicit weight of `0`. -/
def exZeroWeightItem : AnalyzedItem :=
  { title := "a", sentiment := some "bull", confidence := some (4/5),
    weight := some 0 }

/-! ### Specification-side aggregate sums

Named after the spec's wording for `sentiment_from_analyzed`
(`index = (Σ weight·confidence over bull − Σ weight·confidence over bear)
/ Σ weight`); the theorems below compare the source translation against
these sums.  An item participates when its *effective* weight — the
Python-`or` default then the `[0,1]` clamp — is positive. -/

/-- `Σ weight·confidence` over participating bull items. -/
def specBullMass (items : List AnalyzedItem) : ℚ :=
  (items.map (fun it =>
    if 0 < effWeight it ∧ it.sentiment = some "bull" then
      effWeight it * pyOrQ it.confidence 0
    else 0)).sum

/-- `Σ weight·confidence` over participating bear items. -/
def specBearMass (items : List AnalyzedItem) : ℚ :=
  (items.map (fun it =>
    if 0 < effWeight it ∧ it.sentiment = some "bear" then
      effWeight it * pyOrQ it.confidence 0
    else 0)).sum

/-- `Σ weight` over participating items. -/
def specTotalWeight (items : List AnalyzedItem) : ℚ :=
  (items.map (fun it => if 0 < effWeight it then effWeight it else 0)).sum

/-- `Σ weight` over participating items carrying a confidence. -/
def specConfWeight (items : List AnalyzedItem) : ℚ :=
  (items.map (fun it =>
    if 0 < effWeight it ∧ it.confidence ≠ none then effWeight it else 0)).sum

/-- `Σ weight·confidence` over participating items carrying a confidence. -/
def specConfMass (items : List AnalyzedItem) : ℚ :=
  (items.map (fun it =>
    if 0 < effWeight it ∧ it.confidence ≠ none then
      effWeight it * pyOrQ it.confidence 0
    else 0)).sum

/-! ### Proof-side views of the supersession fold -/

/-- The `(topic, ordinal, direction)` triple an item contributes to the
latest-per-topic maps, when it classifies and its date parses. -/
def entryOf (it : NItem) : Option (String × ℕ × ℤ) :=
  match classify_supersede_topic it.title, parse_published_date it.published_at with
  | some (t, d), some pub => some (t, pub.toOrdinal, d)
  | _, _ => none

/-- The per-topic update performed by `latestStep`: keep the strictly
newest entry, ties keeping the first. -/
def topicUpd (acc : Option (ℕ × ℤ)) (e : ℕ × ℤ) : Option (ℕ × ℤ) :=
  match acc with
  | none => some e
  | some pd => if e.1 > pd.1 then some e else some pd

/-- The `(ordinal, direction)` entries of the items classified to topic
`t`. -/
def topicEntries (t : String) (items : List NItem) : List (ℕ × ℤ) :=
  items.filterMap (fun it =>
    match entryOf it with
    | some (t', pd) => if t' = t then some pd else none
    | none => none)

/-- Supersession defaults for the concrete supersession examples
(`supersede.enabled = true`). -/
def exParams : WeightParams := WeightParams.ofRaw none none none none none true

/-- An older rate-hike headline. -/
def exItemHike : NItem :=
  { title := "fed rate hike", published_at := "2026-02-01", weight := some 1,
    age_days := none, superseded := none }

/-- A newer rate-cut headline on the same topic. -/
def exItemCut : NItem :=
  { title := "fed rate cut", published_at := "2026-02-03", weight := some 1,
    age_days := none, superseded := none }

/-- Re-ranking counterexample, item L: a rate-hike headline dated
2026-02-03 with a mid weight. -/
def c9ItemL : NItem :=
  { title := "fed rate hike", published_at := "2026-02-03", weight := some (9/10),
    age_days := none, superseded := none }

/-- Re-ranking counterexample, item M: a rate-cut headline with the same
date as L and the highest weight (so ranking puts it first). -/
def c9ItemM : NItem :=
  { title := "fed rate cut", published_at := "2026-02-03", weight := some (19/20),
    age_days := none, superseded := none }

/-- Re-ranking counterexample, item O: an older rate-hike headline with the
lowest weight. -/
def c9ItemO : NItem :=
  { title := "fed rate hike again", published_at := "2026-02-01", weight := some (1/2),
    age_days := none, superseded := none }

/-- Item L after annotation against reference date 2026-02-04. -/
def c9ItemL1 : NItem := { c9ItemL with age_days := some 1 }

/-- Item M after annotation against reference date 2026-02-04. -/
def c9ItemM1 : NItem := { c9ItemM with age_days := some 1 }

/-- Item O after annotation against reference date 2026-02-04. -/
def c9ItemO1 : NItem := { c9ItemO with age_days := some 3 }

/-- Item O as superseded on the re-run: weight zeroed and flagged. -/
def c9ItemO2 : NItem := { c9ItemO1 with weight := some 0, superseded := some true }

/-- C1 (counterexample): with both agent confidences `0.95` and the default
weights, the no-market fusion confidence is `0.9`, whereas the claim's
formula `clamp(w_m·conf_m + w_s·conf_s, 0.5, 0.95)` yields `0.95`: the two
disagree. -/
theorem C1_counterexample :
    (combine_final exConf95 exConf95 none exWeightsNone).confidence = 9/10 ∧
    clamp ((1/2) * (19/20) + (1/2) * (19/20)) (1/2) (19/20) = 19/20 ∧
    (9/10 : ℚ) ≠ 19/20 := by
  refine ⟨?_, ?_, ?_⟩
  · norm_num [combine_final, clamp, sentiment_band, exConf95, exWeightsNone]
  · norm_num [clamp]
  · norm_num

/-- C1 (amended): with market absent, `combine_final` renormalizes the
macro/symbol weights to sum 1 (50/50 when their sum is `≤ 0`, in
particular when both are zero) and fuses the indices over those weights
exactly as claimed; the confidence however is
`clamp(0.5 + 0.5·(w_m·conf_m + w_s·conf_s), 0.5, 0.9)`, not
`clamp(w_m·conf_m + w_s·conf_s, 0.5, 0.95)`; the result is marked as a
reduced heuristic outcome. -/
theorem C1_no_market_fusion (a b : AgentScore) (w : WeightsCfg) (wm ws : ℚ)
    (hwm : w.macroWeight.getD (3/10) = wm)
    (hws : w.symbolWeight.getD (3/10) = ws) :
    (0 < wm + ws →
      (combine_final a b none w).index =
        clamp (wm / (wm + ws) * a.index + ws / (wm + ws) * b.index) (-1) 1 ∧
      (combine_final a b none w).confidence =
        clamp (1/2 + 1/2 * (wm / (wm + ws) * a.confidence + ws / (wm + ws) * b.confidence))
          (1/2) (9/10)) ∧
    (wm + ws ≤ 0 →
      (combine_final a b none w).index =
        clamp (1/2 * a.index + 1/2 * b.index) (-1) 1 ∧
      (combine_final a b none w).confidence =
        clamp (1/2 + 1/2 * (1/2 * a.confidence + 1/2 * b.confidence)) (1/2) (9/10)) ∧
    (combine_final a b none w).mode = "heuristic" ∧
    (combine_final a b none w).rationale = ["休市：最终分数未计算（仅展示宏观/品种分）"] := by
  subst hwm hws
  refine ⟨fun hpos => ?_, fun hz => ?_, rfl, rfl⟩
  · have hns : ¬ (w.macroWeight.getD (3/10) + w.symbolWeight.getD (3/10) ≤ 0) :=
      not_le.mpr hpos
    simp only [combine_final, hns, if_false]
    constructor
    · ring_nf
    · congr 1
      ring_nf
  · simp only [combine_final, hz, if_true]
    refine ⟨trivial, ?_⟩
    congr 1
    ring

/-- C1 witness: instantiates the amended no-market fusion theorem at the
default weights and concrete agent scores. -/
theorem C1_no_market_fusion_witness :
    (exWeightsNone.macroWeight.getD (3/10) = 3/10) ∧
    ((0:ℚ) < 3/10 + 3/10) ∧
    ((combine_final exFinal exConf95 none exWeightsNone).index =
      clamp ((3/10) / (3/10 + 3/10) * exFinal.index +
        (3/10) / (3/10 + 3/10) * exConf95.index) (-1) 1) := by
  refine ⟨rfl, by norm_num, ?_⟩
  exact ((C1_no_market_fusion exFinal exConf95 exWeightsNone
    (3/10) (3/10) rfl rfl).1 (by norm_num)).1

/-- C2 (counterexample): on a kline with last close 100 and ATR-14 equal
to 2, and a final index of 0.5, the short-term `target1` is `102.0`
(`close + 1.0·atr`), not the claimed `101.0`. -/
theorem C2_counterexample :
    (shortTermOf (trade_plan exSym exKline exFinal)).map (fun hp => hp.target1) =
      some (some 102) ∧
    (some (some (102 : ℚ)) ≠ some (some (101 : ℚ))) := by
  refine ⟨?_, by norm_num⟩
  norm_num [trade_plan, shortTermOf, tradePlanMk, atr14, trueRanges, lastN, pyOrQ,
    pyRound2, roundHalfEven, exSym, exKline, exFinal, exBar1, exBar2]

/-- C2 (amended): for a kline whose last bar closes at 100 with ATR-14
equal to 2 and a long final index of 0.5, the short-term plan is
`entry_zone = [99, 101]`, `stop = 97`, `target2 = 104` as claimed, but
`target1 = 102` (multiplier 1.0 on the ATR), not 101. -/
theorem C2_trade_plan_short_term (sym : SymbolInfo) (kline : List Bar)
    (fs : AgentScore) (last : Bar)
    (hl : kline.getLast? = some last) (hc : pyOrQ last.close 0 = 100)
    (ha : atr14 kline = 2) (hi : fs.index = 1/2) :
    ∃ pos sw md, trade_plan sym kline fs =
      .ok ((last.date).getD "") sym
        { direction := "long", entry_zone := (99, 101), stop := some 97,
          target1 := some 102, target2 := some 104, position := pos } sw md := by
  refine ⟨if fs.confidence < 13/20 then "轻仓" else
      if fs.confidence < 4/5 then "中等仓位" else "偏重仓位",
    tradePlanMk 100 2 "long" fs.confidence 1 (5/2) 2 4,
    tradePlanMk 100 2 "long" fs.confidence (3/2) (7/2) 3 6, ?_⟩
  simp only [trade_plan, hl, hc, ha, hi]
  norm_num [tradePlanMk, pyRound2, roundHalfEven]

/-- C2 witness: instantiates the amended short-term plan theorem at a
concrete two-bar kline with close 100 and ATR-14 = 2. -/
theorem C2_trade_plan_short_term_witness :
    exKline.getLast? = some exBar2 ∧
    pyOrQ exBar2.close 0 = 100 ∧
    atr14 exKline = 2 ∧
    (∃ pos sw md, trade_plan exSym exKline exFinal =
      .ok ((exBar2.date).getD "") exSym
        { direction := "long", entry_zone := (99, 101), stop := some 97,
          target1 := some 102, target2 := some 104, position := pos } sw md) := by
  refine ⟨rfl, by norm_num [pyOrQ, exBar2],
    by norm_num [atr14, trueRanges, lastN, pyOrQ, exKline, exBar1, exBar2], ?_⟩
  exact C2_trade_plan_short_term exSym exKline exFinal exBar2 rfl
    (by norm_num [pyOrQ, exBar2])
    (by norm_num [atr14, trueRanges, lastN, pyOrQ, exKline, exBar1, exBar2]) rfl

/-- C3 (code bug): the source's comments say the sanitizer removes numbers
from LLM rationale lines, but the pattern `r"(?<!\\d)(-?\\d+(?:\.\\d+)?)(?!\\d)"`
is a *raw* string whose `\\` matches a literal backslash, so it never
matches a digit: `market_agent_llm` returns the digit-bearing line intact,
and `macro_agent` performs no sanitisation at all — its LLM rationale is
returned verbatim. -/
theorem C3_rationale_digits_not_stripped :
    sanitizeLine "up 5.2% today" = "up 5.2% today" ∧
    "up 5.2% today".toList.any Char.isDigit = true ∧
    macro_agent true (some exRespDigits) [exItemBull] = .ok exScoreDigits ∧
    market_agent_llm true (some exRespDigits) exKline10 "2026-01-10" none =
      some exScoreDigits ∧
    exScoreDigits.rationale.any (fun s => s.toList.any Char.isDigit) = true := by
  refine ⟨by decide, by decide, ?_, ?_, by decide⟩
  · simp [macro_agent, exRespDigits, exItemBull, exScoreDigits, jLookup, pyOrJ,
      JVal.truthy, pyFloatE, ratOfResp, pyStr, clamp, sentiment_band]
    norm_num
  · simp [market_agent_llm, exRespDigits, exKline10, mkDayBar, exScoreDigits,
      klineDates, klineCloses, jLookup, pyOrJ, JVal.truthy, pyFloatE, ratOfResp,
      pyStr, clamp, sentiment_band, sanitizeLines, sanitizeLine, pyStrip,
      pyStripChars, isPySpace, subSpacePattern, subSpGo, subNumPattern, subNumGo,
      matchNumPat, matchCore, charRun, pyOrQ, pyLower, List.filterMap, List.filter]
    norm_num

/-- C7 (code bug): `market_agent_llm` wraps its `float()` conversions in
`try/except` and degrades a malformed response to `None`, but
`macro_agent` / `symbol_news_agent` do not: a JSON object whose `index`
value fails numeric conversion raises `ValueError` out of the agent
instead of falling back to the heuristic path. -/
theorem C7_macro_agent_raises_on_bad_index :
    macro_agent true (some exRespBadIndex) [exItemBull] = .error "ValueError" ∧
    symbol_news_agent true (some exRespBadIndex) [exItemBull] = .error "ValueError" ∧
    market_agent_llm true (some exRespBadIndex) exKline10 "2026-01-10" none = none := by
  refine ⟨?_, ?_, ?_⟩
  · simp [macro_agent, exRespBadIndex, exItemBull, jLookup, pyOrJ, JVal.truthy,
      pyFloatE, parseDecimal, digitsToNat]
  · simp [symbol_news_agent, macro_agent, exRespBadIndex, exItemBull, jLookup,
      pyOrJ, JVal.truthy, pyFloatE, parseDecimal, digitsToNat]
  · simp [market_agent_llm, exRespBadIndex, exKline10, mkDayBar, klineDates,
      klineCloses, jLookup, pyOrJ, JVal.truthy, pyFloatE, parseDecimal,
      digitsToNat, pyOrQ, List.filterMap, List.filter]

/-- The two clamp orientations agree when the floor does not exceed the
ceiling: `min 1 (max m x) = clamp x m 1`. -/
theorem min_max_eq_clamp (x m : ℚ) (hm : m ≤ 1) :
    min 1 (max m x) = clamp x m 1 := by
  unfold clamp
  simp only [min_def, max_def]
  split_ifs <;> linarith

/-- C5: for a parseable reference date, the recency weight of an item with
a parseable publish date is `clamp(0.5^(age/half_life) ·
(fresh_boost if age ≤ fresh_boost_days else 1), min_weight, 1)` with
`age = max(0, ref − pub)` (in days), hence always within
`[min_weight, 1]`; the configured fresh boost is capped at 3 and the floor
at 1; an unparseable publish date yields the fixed pair `(0.25, no age)`.
`powHalf` abstracts the transcendental `math.pow(0.5, age/half)`; only its
value `1` at age 0 is needed. -/
theorem C5_recency_weight (half maxAge : Option ℤ) (minW : Option ℚ)
    (fbd : Option ℤ) (fb : Option ℚ) (sup : Bool) (powHalf : ℕ → ℕ → ℚ)
    (pub date : String) (target : Date)
    (hpow0 : ∀ h, powHalf 0 h = 1)
    (hd : parseISODate date = some target) :
    (1 ≤ (WeightParams.ofRaw half maxAge minW fbd fb sup).fresh_boost ∧
      (WeightParams.ofRaw half maxAge minW fbd fb sup).fresh_boost ≤ 3 ∧
      0 ≤ (WeightParams.ofRaw half maxAge minW fbd fb sup).min_weight ∧
      (WeightParams.ofRaw half maxAge minW fbd fb sup).min_weight ≤ 1) ∧
    (∀ dp, parse_published_date pub = some dp →
      (compute_recency_weight (WeightParams.ofRaw half maxAge minW fbd fb sup)
          powHalf pub date).2 =
        some (((target.toOrdinal : ℤ) - (dp.toOrdinal : ℤ)).toNat : ℤ) ∧
      (compute_recency_weight (WeightParams.ofRaw half maxAge minW fbd fb sup)
          powHalf pub date).1 =
        clamp (powHalf (((target.toOrdinal : ℤ) - (dp.toOrdinal : ℤ)).toNat)
            (WeightParams.ofRaw half maxAge minW fbd fb sup).half_life_days *
          (if (((target.toOrdinal : ℤ) - (dp.toOrdinal : ℤ)).toNat) ≤
              (WeightParams.ofRaw half maxAge minW fbd fb sup).fresh_boost_days then
            (WeightParams.ofRaw half maxAge minW fbd fb sup).fresh_boost else 1))
          (WeightParams.ofRaw half maxAge minW fbd fb sup).min_weight 1 ∧
      (WeightParams.ofRaw half maxAge minW fbd fb sup).min_weight ≤
        (compute_recency_weight (WeightParams.ofRaw half maxAge minW fbd fb sup)
          powHalf pub date).1 ∧
      (compute_recency_weight (WeightParams.ofRaw half maxAge minW fbd fb sup)
        powHalf pub date).1 ≤ 1) ∧
    (parse_published_date pub = none →
      compute_recency_weight (WeightParams.ofRaw half maxAge minW fbd fb sup)
        powHalf pub date = (1/4, none)) := by
  have hboost1 : 1 ≤ (WeightParams.ofRaw half maxAge minW fbd fb sup).fresh_boost :=
    le_max_left _ _
  have hboost3 : (WeightParams.ofRaw half maxAge minW fbd fb sup).fresh_boost ≤ 3 :=
    max_le (by norm_num) (min_le_right _ _)
  have hmw0 : 0 ≤ (WeightParams.ofRaw half maxAge minW fbd fb sup).min_weight :=
    le_max_left _ _
  have hmw1 : (WeightParams.ofRaw half maxAge minW fbd fb sup).min_weight ≤ 1 :=
    max_le (by norm_num) (min_le_right _ _)
  refine ⟨⟨hboost1, hboost3, hmw0, hmw1⟩, ?_, ?_⟩
  · intro dp hdp
    have hcrw : ∀ q : ℚ,
        compute_recency_weight (WeightParams.ofRaw half maxAge minW fbd fb sup)
          powHalf pub date =
        (min 1 (max (WeightParams.ofRaw half maxAge minW fbd fb sup).min_weight
          (if 0 < (WeightParams.ofRaw half maxAge minW fbd fb sup).fresh_boost_days ∧
              (((target.toOrdinal : ℤ) - (dp.toOrdinal : ℤ)).toNat) ≤
                (WeightParams.ofRaw half maxAge minW fbd fb sup).fresh_boost_days then
            powHalf (((target.toOrdinal : ℤ) - (dp.toOrdinal : ℤ)).toNat)
                (WeightParams.ofRaw half maxAge minW fbd fb sup).half_life_days *
              (WeightParams.ofRaw half maxAge minW fbd fb sup).fresh_boost
          else powHalf (((target.toOrdinal : ℤ) - (dp.toOrdinal : ℤ)).toNat)
            (WeightParams.ofRaw half maxAge minW fbd fb sup).half_life_days)),
          some (((target.toOrdinal : ℤ) - (dp.toOrdinal : ℤ)).toNat : ℤ)) := by
      intro _
      unfold compute_recency_weight
      rw [hd, hdp]
    have hcrw' := hcrw 0
    rw [hcrw']
    refine ⟨rfl, ?_, ?_, ?_⟩
    · generalize hage : (((target.toOrdinal : ℤ) - (dp.toOrdinal : ℤ)).toNat) = age
      by_cases hfbd : 0 < (WeightParams.ofRaw half maxAge minW fbd fb sup).fresh_boost_days
      · rw [if_congr (and_iff_right hfbd) rfl rfl, mul_ite, mul_one]
        exact min_max_eq_clamp _ _ hmw1
      · have hfbd0 : (WeightParams.ofRaw half maxAge minW fbd fb sup).fresh_boost_days = 0 :=
          Nat.eq_zero_of_not_pos hfbd
        rw [if_neg (fun hcontra => hfbd hcontra.1)]
        by_cases hage0 : age = 0
        · subst hage0
          rw [if_pos (by omega), hpow0, one_mul]
          unfold clamp
          simp only [min_def, max_def]
          split_ifs <;> linarith
        · rw [if_neg (by omega), mul_one]
          exact min_max_eq_clamp _ _ hmw1
    · exact le_min hmw1 (le_max_left _ _)
    · exact min_le_left _ _
  · intro hdp
    unfold compute_recency_weight
    rw [hd, hdp]

/-- C5 witness: default configuration (half-life forced to 1), the exact
`halfPowInt` decay, and concrete ISO dates three days apart. -/
theorem C5_recency_weight_witness :
    (∀ h, halfPowInt 0 h = 1) ∧
    parseISODate "2026-02-04" = some ⟨2026, 2, 4⟩ ∧
    parse_published_date "2026-02-01" = some ⟨2026, 2, 1⟩ ∧
    (compute_recency_weight (WeightParams.ofRaw (some 1) none none none none true)
      halfPowInt "2026-02-01" "2026-02-04").1 ≤ 1 := by
  have hpow0 : ∀ h, halfPowInt 0 h = 1 := by
    intro h
    unfold halfPowInt
    rw [Nat.zero_div, pow_zero]
  refine ⟨hpow0, by decide, by decide, ?_⟩
  exact (((C5_recency_weight (some 1) none none none none true halfPowInt
    "2026-02-01" "2026-02-04" ⟨2026, 2, 4⟩ hpow0 (by decide)).2.1
    ⟨2026, 2, 1⟩ (by decide))).2.2.2

/-- C8: when the reference date is not among the kline bar dates, both
market agents return no score, and the pipeline records the market, final
and plan payloads with status `"skipped"` (computing neither a fused score
nor a plan); a missing kline yields the distinct status `"unavailable"`. -/
theorem C8_non_trading_day_skip (enabled : Bool) (resp : Option JVal)
    (fund : Option Fund) (kline : List Bar) (date : String) (sym : SymbolInfo)
    (a b : AgentScore) (w : WeightsCfg)
    (hd : date ∉ klineDates kline) :
    market_agent kline date = none ∧
    market_agent_llm enabled resp kline date fund = none ∧
    (kline ≠ [] →
      cmd_update_dispatch sym kline
        ((market_agent_llm enabled resp kline date fund).orElse
          (fun _ => market_agent kline date)) a b w =
      { market_status := "skipped", final_status := "skipped",
        plan_status := "skipped", finalScore := none, plan := none }) ∧
    cmd_update_dispatch sym [] none a b w =
      { market_status := "unavailable", final_status := "unavailable",
        plan_status := "unavailable", finalScore := none, plan := none } ∧
    ("skipped" : String) ≠ "unavailable" := by
  have hma : market_agent kline date = none := by
    simp only [market_agent, if_pos hd]
  have hml : market_agent_llm enabled resp kline date fund = none := by
    cases enabled with
    | false => simp [market_agent_llm]
    | true => simp [market_agent_llm, hd]
  refine ⟨hma, hml, fun hk => ?_, rfl, by decide⟩
  simp only [cmd_update_dispatch, hma, hml, if_neg hk, Option.orElse]

/-- C8 witness: a two-bar kline and a reference date absent from its
dates. -/
theorem C8_non_trading_day_skip_witness :
    ("2026-01-03" ∉ klineDates exKline) ∧
    market_agent exKline "2026-01-03" = none ∧
    market_agent_llm false none exKline "2026-01-03" none = none := by
  have h := C8_non_trading_day_skip false none none exKline "2026-01-03"
    exSym exFinal exFinal exWeightsNone (by decide)
  exact ⟨by decide, h.1, h.2.1⟩

/-- C10: the coarse band of every produced `AgentScore` agrees with its
numeric index: `sentiment_band` is characterised by the `±0.2` thresholds,
and every score leaving `macro_agent`, `symbol_news_agent`,
`market_agent`, `market_agent_llm` or `combine_final` satisfies
`band = sentiment_band index`. -/
theorem C10_band_matches_index :
    (∀ v : ℚ, (sentiment_band v = "bull" ↔ 1/5 < v) ∧
      (sentiment_band v = "bear" ↔ v < -(1/5)) ∧
      (sentiment_band v = "neutral" ↔ (-(1/5) ≤ v ∧ v ≤ 1/5))) ∧
    (∀ e r n s, macro_agent e r n = .ok s → s.band = sentiment_band s.index) ∧
    (∀ e r n s, symbol_news_agent e r n = .ok s → s.band = sentiment_band s.index) ∧
    (∀ k d s, market_agent k d = some s → s.band = sentiment_band s.index) ∧
    (∀ e r k d f s, market_agent_llm e r k d f = some s →
      s.band = sentiment_band s.index) ∧
    (∀ a b m w, (combine_final a b m w).band =
      sentiment_band (combine_final a b m w).index) := by
  have hmacro : ∀ e r n s, macro_agent e r n = .ok s →
      s.band = sentiment_band s.index := by
    intro e r n s h
    unfold macro_agent at h
    dsimp only at h
    split at h
    case isTrue =>
      split at h
      case h_1 kvs =>
        split at h
        case isTrue =>
          cases hA : pyFloatE (pyOrJ (jLookup kvs "index") (JVal.num 0)) with
          | error eo => rw [hA] at h; exact absurd h (by simp)
          | ok idx0 =>
            rw [hA] at h
            cases hB : pyFloatE (pyOrJ (jLookup kvs "confidence") (JVal.num (11/20))) with
            | error eo => rw [hB] at h; exact absurd h (by simp)
            | ok conf0 =>
              rw [hB] at h
              simp only [Except.ok.injEq] at h
              subst h; rfl
        case isFalse =>
          simp only [Except.ok.injEq] at h
          subst h; rfl
      case h_2 =>
        simp only [Except.ok.injEq] at h
        subst h; rfl
    case isFalse =>
      simp only [Except.ok.injEq] at h
      subst h; rfl
  refine ⟨?_, hmacro, fun e r n s h => hmacro e r n s h, ?_, ?_, ?_⟩
  · intro v
    unfold sentiment_band
    split_ifs with h1 h2
    · refine ⟨iff_of_true rfl h1, ?_, ?_⟩
      · refine iff_of_false (by decide) ?_
        intro h; linarith
      · refine iff_of_false (by decide) ?_
        intro h; linarith [h.2]
    · refine ⟨?_, iff_of_true rfl h2, ?_⟩
      · refine iff_of_false (by decide) ?_
        intro h; linarith
      · refine iff_of_false (by decide) ?_
        intro h; linarith [h.1]
    · push_neg at h1 h2
      refine ⟨?_, ?_, iff_of_true rfl ⟨h2, h1⟩⟩
      · refine iff_of_false (by decide) ?_
        intro h; linarith
      · refine iff_of_false (by decide) ?_
        intro h; linarith
  · intro k d s h
    unfold market_agent at h
    dsimp only at h
    split at h
    case isTrue => exact absurd h (by simp)
    case isFalse =>
      split at h
      case isTrue =>
        simp only [Option.some.injEq] at h
        subst h
        norm_num [sentiment_band]
      case isFalse =>
        simp only [Option.some.injEq] at h
        subst h; rfl
  · intro e r k d f s h
    unfold market_agent_llm at h
    dsimp only at h
    split at h
    case isTrue => exact absurd h (by simp)
    case isFalse =>
      split at h
      case isTrue => exact absurd h (by simp)
      case isFalse =>
        split at h
        case isTrue =>
          simp only [Option.some.injEq] at h
          subst h
          norm_num [sentiment_band]
        case isFalse =>
          split at h
          case h_1 kvs =>
            split at h
            case isTrue =>
              cases hA : pyFloatE (pyOrJ (jLookup kvs "index") (JVal.num 0)) with
              | error eo =>
                rw [hA] at h
                exact absurd h (by simp)
              | ok idx0 =>
                rw [hA] at h
                cases hB : pyFloatE (pyOrJ (jLookup kvs "confidence") (JVal.num (11/20))) with
                | error eo =>
                  rw [hB] at h
                  exact absurd h (by simp)
                | ok conf0 =>
                  rw [hB] at h
                  simp only [Option.some.injEq] at h
                  subst h; rfl
            case isFalse => exact absurd h (by simp)
          case h_2 => exact absurd h (by simp)
  · intro a b m w
    cases m <;> rfl

/-- C10 witness: the low-data neutral branch of `market_agent` at a
one-bar kline whose date matches the reference date. -/
theorem C10_band_matches_index_witness :
    market_agent [mkDayBar "2026-01-01"] "2026-01-01" =
      some { index := 0, band := "neutral", confidence := 11/20,
             mode := "heuristic", rationale := ["K线数据不足"] } ∧
    ({ index := 0, band := "neutral", confidence := 11/20,
       mode := "heuristic", rationale := ["K线数据不足"] } : AgentScore).band =
      sentiment_band 0 := by
  have h : market_agent [mkDayBar "2026-01-01"] "2026-01-01" =
      some { index := 0, band := "neutral", confidence := 11/20,
             mode := "heuristic", rationale := ["K线数据不足"] } := by
    simp [market_agent, mkDayBar, klineDates, klineCloses, klineVols]
  exact ⟨h, C10_band_matches_index.2.2.2.1 _ _ _ h⟩

/-- The accumulation loop of `sentiment_from_analyzed` computes the three
participating-item sums. -/
theorem sfa_foldl (items : List AnalyzedItem) : ∀ b r w : ℚ,
    items.foldl sfaStep (b, r, w) =
      (b + specBullMass items, r + specBearMass items, w + specTotalWeight items) := by
  induction items with
  | nil => intro b r w; simp [specBullMass, specBearMass, specTotalWeight]
  | cons it rest ih =>
    intro b r w
    simp only [List.foldl_cons]
    by_cases hw : effWeight it ≤ 0
    · have hnw : ¬ (0 < effWeight it) := not_lt.mpr hw
      rw [show sfaStep (b, r, w) it = (b, r, w) from by
        unfold sfaStep; rw [if_pos hw]]
      rw [ih b r w]
      simp only [specBullMass, specBearMass, specTotalWeight, List.map_cons,
        List.sum_cons, hnw, false_and, if_false]
      refine Prod.ext ?_ (Prod.ext ?_ ?_) <;> simp
    · have hpw : 0 < effWeight it := not_le.mp hw
      by_cases hb : it.sentiment = some "bull"
      · have hnb : ¬ (it.sentiment = some "bear") := by
          rw [hb]; intro hc; exact absurd (Option.some.inj hc) (by decide)
        rw [show sfaStep (b, r, w) it =
            (b + effWeight it * pyOrQ it.confidence 0, r, w + effWeight it) from by
          unfold sfaStep; rw [if_neg hw, if_pos hb]]
        rw [ih]
        simp only [specBullMass, specBearMass, specTotalWeight, List.map_cons,
          List.sum_cons, hpw, hb, hnb, true_and, and_true, and_false, if_true, if_false]
        refine Prod.ext ?_ (Prod.ext ?_ ?_) <;> simp <;> ring
      · by_cases hr : it.sentiment = some "bear"
        · rw [show sfaStep (b, r, w) it =
              (b, r + effWeight it * pyOrQ it.confidence 0, w + effWeight it) from by
            unfold sfaStep; rw [if_neg hw, if_neg hb, if_pos hr]]
          rw [ih]
          simp only [specBullMass, specBearMass, specTotalWeight, List.map_cons,
            List.sum_cons, hpw, hb, hr, true_and, and_true, and_false, if_true, if_false]
          refine Prod.ext ?_ (Prod.ext ?_ ?_) <;> simp <;> ring
        · rw [show sfaStep (b, r, w) it = (b, r, w + effWeight it) from by
            unfold sfaStep; rw [if_neg hw, if_neg hb, if_neg hr]]
          rw [ih]
          simp only [specBullMass, specBearMass, specTotalWeight, List.map_cons,
            List.sum_cons, hpw, hb, hr, true_and, and_true, and_false, if_true, if_false]
          refine Prod.ext ?_ (Prod.ext ?_ ?_) <;> (simp; try ring)

/-- The pair list built by `_avg_conf` sums to the participating
confidence weights and masses. -/
theorem avg_pairs_sums (items : List AnalyzedItem) :
    ((items.filterMap avgPair).map Prod.fst).sum = specConfWeight items ∧
    ((items.filterMap avgPair).map (fun p => p.2 * p.1)).sum = specConfMass items := by
  induction items with
  | nil => simp [specConfWeight, specConfMass]
  | cons it rest ih =>
    rcases hc : it.confidence with _ | cv
    · have hap : avgPair it = none := by unfold avgPair; rw [hc]
      have hcond : ¬ (0 < effWeight it ∧ it.confidence ≠ none) := by
        rintro ⟨_, hcn⟩; exact hcn hc
      simp only [List.filterMap_cons, hap, specConfWeight, specConfMass,
        List.map_cons, List.sum_cons, hcond, if_false]
      exact ⟨by rw [ih.1]; simp [specConfWeight], by rw [ih.2]; simp [specConfMass]⟩
    · by_cases hw : effWeight it ≤ 0
      · have hap : avgPair it = none := by
          unfold avgPair; rw [hc]; simp [hw]
        have hcond : ¬ (0 < effWeight it ∧ it.confidence ≠ none) := by
          rintro ⟨hpos, _⟩; exact absurd hpos (not_lt.mpr hw)
        simp only [List.filterMap_cons, hap, specConfWeight, specConfMass,
          List.map_cons, List.sum_cons, hcond, if_false]
        exact ⟨by rw [ih.1]; simp [specConfWeight], by rw [ih.2]; simp [specConfMass]⟩
      · have hap : avgPair it = some (effWeight it, pyOrQ it.confidence 0) := by
          unfold avgPair; rw [hc]; simp [hw]
        have hcond : 0 < effWeight it ∧ it.confidence ≠ none := by
          refine ⟨not_le.mp hw, ?_⟩
          rw [hc]; exact Option.some_ne_none cv
        simp only [List.filterMap_cons, hap, specConfWeight, specConfMass,
          List.map_cons, List.sum_cons, hcond, if_true]
        constructor
        · rw [ih.1]; simp [specConfWeight, hc]
        · rw [ih.2]; simp [specConfMass, hc]; ring

/-- C6 (counterexample): an item with an explicit weight of `0` is *not*
ignored — Python's `or` turns the falsy `0.0` into the default `1.0` — so
one bull item of weight 0 and confidence 0.8 yields index 0.8, not the
claimed zero-weight default 0. -/
theorem C6_counterexample :
    sentiment_from_analyzed [exZeroWeightItem] = (4/5, (1, 0, 0), 4/5) ∧
    ((4/5 : ℚ) ≠ 0) := by
  constructor
  · simp [sentiment_from_analyzed, exZeroWeightItem, sfaStep, effWeight, pyOrQ,
      avg_conf, avgPair, clamp]
    norm_num
  · norm_num

/-- C6 (amended): `sentiment_from_analyzed` computes
`clamp((Σ w·conf over bull − Σ w·conf over bear) / Σ w, −1, 1)` with the
weighted-mean confidence clamped to `[0.5, 0.95]`, and returns
`(0, zero counts, 0.55)` on an empty list or zero total weight — where an
item participates iff its *effective* weight is positive: a missing,
`None` or exactly-zero weight counts as `1.0` (Python `or` fallback), so
only items with negative weight are ignored, not all items with
weight ≤ 0. -/
theorem C6_sentiment_aggregation (items : List AnalyzedItem) :
    (0 < specTotalWeight items →
      sentiment_from_analyzed items =
        (clamp ((specBullMass items - specBearMass items) / specTotalWeight items) (-1) 1,
          ((items.filter (fun it => it.sentiment = some "bull")).length,
            (items.filter (fun it => it.sentiment = some "bear")).length,
            (items.filter (fun it => it.sentiment = some "neutral")).length),
          clamp (avg_conf items) (1/2) (19/20))) ∧
    (0 < specConfWeight items →
      avg_conf items = specConfMass items / specConfWeight items) ∧
    (specTotalWeight items ≤ 0 ∨ items = [] →
      sentiment_from_analyzed items = (0, (0, 0, 0), 11/20)) := by
  have hfold := sfa_foldl items 0 0 0
  refine ⟨?_, ?_, ?_⟩
  · intro hW
    have hne : items ≠ [] := by
      rintro rfl
      simp [specTotalWeight] at hW
    unfold sentiment_from_analyzed
    rw [if_neg hne, hfold]
    simp only [zero_add]
    rw [if_neg (not_le.mpr hW)]
    rfl
  · intro hCW
    have hsums := avg_pairs_sums items
    unfold avg_conf
    have hpne : items.filterMap avgPair ≠ [] := by
      intro hnil
      rw [hnil] at hsums
      simp only [List.map_nil, List.sum_nil] at hsums
      rw [← hsums.1] at hCW
      exact absurd hCW (by norm_num)
    rw [if_neg hpne, hsums.1, hsums.2, if_neg (not_le.mpr hCW)]
  · intro hz
    rcases hz with hW | hnil
    · unfold sentiment_from_analyzed
      by_cases hne : items = []
      · rw [if_pos hne]
      · rw [if_neg hne, hfold]
        simp only [zero_add]
        rw [if_pos hW]
    · rw [hnil]
      rfl

/-- C6 witness: the spec's ratio scenario — three bull items of weight 1
and confidence 0.8, one bear item of weight 1 and confidence 0.4 — has
positive total weight, and the aggregation theorem applies; the resulting
index is `(3·0.8 − 0.4)/4 = 0.5`. -/
theorem C6_sentiment_aggregation_witness :
    (0 : ℚ) < specTotalWeight ex4Items ∧
    sentiment_from_analyzed ex4Items =
      (clamp ((specBullMass ex4Items - specBearMass ex4Items) /
          specTotalWeight ex4Items) (-1) 1,
        ((ex4Items.filter (fun it => it.sentiment = some "bull")).length,
          (ex4Items.filter (fun it => it.sentiment = some "bear")).length,
          (ex4Items.filter (fun it => it.sentiment = some "neutral")).length),
        clamp (avg_conf ex4Items) (1/2) (19/20)) ∧
    (sentiment_from_analyzed ex4Items).1 = 1/2 := by
  have hW : (0 : ℚ) < specTotalWeight ex4Items := by
    simp [specTotalWeight, ex4Items, effWeight, pyOrQ]
    norm_num
  have happ := (C6_sentiment_aggregation ex4Items).1 hW
  have hval : (sentiment_from_analyzed ex4Items).1 = 1/2 := by
    simp [sentiment_from_analyzed, ex4Items, sfaStep, effWeight, pyOrQ, clamp]
    norm_num
  exact ⟨hW, happ, hval⟩

/-- Lookup after insert-or-replace in the per-topic association list. -/
theorem alistLookup_upd (k k' : String) (v : ℕ × ℤ) :
    ∀ m, alistLookup k (alistUpd k' v m) =
      if k = k' then some v else alistLookup k m := by
  intro m
  induction m with
  | nil =>
    by_cases h : k = k'
    · subst h; simp [alistUpd, alistLookup]
    · simp [alistUpd, alistLookup, h]
  | cons kv rest ih =>
    obtain ⟨k0, v0⟩ := kv
    by_cases h1 : k' = k0
    · subst h1
      by_cases h2 : k = k'
      · subst h2; simp [alistUpd, alistLookup]
      · simp [alistUpd, alistLookup, h2]
    · by_cases h2 : k = k0
      · have hkk : ¬ k = k' := fun hc => h1 (hc ▸ h2)
        have h3 : ¬ k0 = k' := fun hc => h1 hc.symm
        simp [alistUpd, alistLookup, h1, h2, hkk, h3]
      · simp [alistUpd, alistLookup, h1, h2, ih]
/-- One `latestStep` iteration updates exactly the item's topic, by the
strict-newest rule. -/
theorem alistLookup_latestStep (t : String) (m : List (String × ℕ × ℤ)) (it : NItem) :
    alistLookup t (latestStep m it) =
      match entryOf it with
      | some (t', pd) =>
        if t' = t then topicUpd (alistLookup t m) pd else alistLookup t m
      | none => alistLookup t m := by
  unfold latestStep entryOf
  rcases hcl : classify_supersede_topic it.title with _ | ⟨topic, dir⟩
  · rfl
  · rcases hpp : parse_published_date it.published_at with _ | pub
    · rfl
    · dsimp only
      rcases hlk : alistLookup topic m with _ | ⟨prev, d0⟩
      · by_cases ht : topic = t
        · subst ht
          simp [alistLookup_upd, hlk, topicUpd]
        · simp [alistLookup_upd, ht]
          intro hc
          exact absurd hc.symm ht
      · dsimp only
        by_cases hgt : pub.toOrdinal > prev
        · rw [if_pos hgt]
          by_cases ht : topic = t
          · subst ht
            simp [alistLookup_upd, hlk, topicUpd, hgt]
          · simp [alistLookup_upd, ht]
            intro hc
            exact absurd hc.symm ht
        · rw [if_neg hgt]
          by_cases ht : topic = t
          · subst ht
            simp [hlk, topicUpd, hgt]
          · simp [ht]

/-- The latest-per-topic fold, viewed one topic at a time. -/
theorem alistLookup_buildFrom (t : String) :
    ∀ (items : List NItem) (m : List (String × ℕ × ℤ)),
      alistLookup t (items.foldl latestStep m) =
        (topicEntries t items).foldl topicUpd (alistLookup t m) := by
  intro items
  induction items with
  | nil => intro m; simp [topicEntries]
  | cons it rest ih =>
    intro m
    simp only [List.foldl_cons]
    rw [ih]
    unfold topicEntries
    simp only [List.filterMap_cons]
    rcases he : entryOf it with _ | ⟨t', pd⟩
    · rw [alistLookup_latestStep, he]
    · by_cases ht : t' = t
      · subst ht
        rw [alistLookup_latestStep, he]
        simp [List.foldl_cons]
      · rw [alistLookup_latestStep, he]
        simp [ht]
/-- The per-topic fold selects the maximal ordinal; when every
max-attaining entry carries direction `D`, the selected direction is `D`. -/
theorem topicFold_max : ∀ (es : List (ℕ × ℤ)) (acc : Option (ℕ × ℤ)) (P : ℕ) (D : ℤ),
    (∀ e ∈ es, e.1 ≤ P ∧ (e.1 = P → e.2 = D)) →
    (acc = none ∨ ∃ pd, acc = some pd ∧ pd.1 ≤ P ∧ (pd.1 = P → pd.2 = D)) →
    ((∃ e ∈ es, e.1 = P) ∨ acc = some (P, D)) →
    es.foldl topicUpd acc = some (P, D) := by
  intro es
  induction es with
  | nil =>
    intro acc P D _ _ hex
    rcases hex with ⟨e, hmem, _⟩ | hacc
    · exact absurd hmem (List.not_mem_nil e)
    · simpa using hacc
  | cons e rest ih =>
    intro acc P D hbound hacc hex
    have hbe := hbound e (List.mem_cons_self e rest)
    have hbrest : ∀ e' ∈ rest, e'.1 ≤ P ∧ (e'.1 = P → e'.2 = D) :=
      fun e' he' => hbound e' (List.mem_cons_of_mem e he')
    simp only [List.foldl_cons]
    have hacc' : topicUpd acc e = none ∨
        ∃ pd, topicUpd acc e = some pd ∧ pd.1 ≤ P ∧ (pd.1 = P → pd.2 = D) := by
      right
      rcases hacc with hnone | ⟨pd, hpd, hpd1, hpd2⟩
      · exact ⟨e, by rw [hnone]; rfl, hbe.1, hbe.2⟩
      · rw [hpd]
        simp only [topicUpd]
        by_cases hgt : e.1 > pd.1
        · rw [if_pos hgt]
          exact ⟨e, rfl, hbe.1, hbe.2⟩
        · rw [if_neg hgt]
          exact ⟨pd, rfl, hpd1, hpd2⟩
    have hex' : (∃ e' ∈ rest, e'.1 = P) ∨ topicUpd acc e = some (P, D) := by
      rcases hex with ⟨e0, he0mem, he0P⟩ | haccPD
      · rcases List.mem_cons.mp he0mem with he0e | he0rest
        · right
          have heP : e.1 = P := he0e ▸ he0P
          have heD : e.2 = D := hbe.2 heP
          rcases hacc with hnone | ⟨pd, hpd, hpd1, hpd2⟩
          · rw [hnone]
            simp only [topicUpd]
            rw [← heP, ← heD]
          · rw [hpd]
            simp only [topicUpd]
            by_cases hgt : e.1 > pd.1
            · rw [if_pos hgt, ← heP, ← heD]
            · rw [if_neg hgt]
              have hpdP : pd.1 = P := le_antisymm hpd1 (by rw [← heP]; exact not_lt.mp hgt)
              have hpdD : pd.2 = D := hpd2 hpdP
              rw [← hpdP, ← hpdD]
        · exact Or.inl ⟨e0, he0rest, he0P⟩
      · right
        rw [haccPD]
        simp only [topicUpd]
        have : ¬ (e.1 > P) := not_lt.mpr hbe.1
        rw [if_neg this]
    exact ih (topicUpd acc e) P D hbrest hacc' hex'

/-- C4: with supersession enabled, for items A (older, direction +1) and B
(uniquely latest on the same topic, direction −1), `_apply_supersede` sets
A's weight to 0 and flags `superseded := true`, leaves B unchanged, and
removes nothing: positions and length are preserved. -/
theorem C4_supersession_marks_older (p : WeightParams) (items : List NItem) (i j : ℕ)
    (A B : NItem) (topic : String) (dA dB : Date)
    (hen : p.supersede_enabled = true)
    (hA : items.get? i = some A) (hB : items.get? j = some B)
    (hcA : classify_supersede_topic A.title = some (topic, 1))
    (hcB : classify_supersede_topic B.title = some (topic, -1))
    (hpA : parse_published_date A.published_at = some dA)
    (hpB : parse_published_date B.published_at = some dB)
    (hlt : dA.toOrdinal < dB.toOrdinal)
    (hmax : ∀ it ∈ items,
      match classify_supersede_topic it.title, parse_published_date it.published_at with
      | some (t', d'), some dp => t' = topic →
          dp.toOrdinal ≤ dB.toOrdinal ∧ (dp.toOrdinal = dB.toOrdinal → d' = -1)
      | _, _ => True) :
    (apply_supersede p items).get? i =
      some { A with weight := some 0, superseded := some true } ∧
    (apply_supersede p items).get? j = some B ∧
    (apply_supersede p items).length = items.length := by
  have hBmem : B ∈ items := List.get?_mem hB
  have hentB : entryOf B = some (topic, dB.toOrdinal, -1) := by
    unfold entryOf; rw [hcB, hpB]
  have hmemEnt : (dB.toOrdinal, (-1 : ℤ)) ∈ topicEntries topic items := by
    unfold topicEntries
    refine List.mem_filterMap.mpr ⟨B, hBmem, ?_⟩
    rw [hentB]
    simp
  have hboundEnt : ∀ e ∈ topicEntries topic items,
      e.1 ≤ dB.toOrdinal ∧ (e.1 = dB.toOrdinal → e.2 = -1) := by
    intro e he
    unfold topicEntries at he
    obtain ⟨it, hitmem, hit⟩ := List.mem_filterMap.mp he
    have hm := hmax it hitmem
    rcases hcl : classify_supersede_topic it.title with _ | ⟨t', d'⟩
    · unfold entryOf at hit
      rw [hcl] at hit
      exact absurd hit (by simp)
    · rcases hpp : parse_published_date it.published_at with _ | dp
      · unfold entryOf at hit
        rw [hcl, hpp] at hit
        exact absurd hit (by simp)
      · unfold entryOf at hit
        rw [hcl, hpp] at hit
        dsimp only at hit
        rw [hcl, hpp] at hm
        dsimp only at hm
        by_cases ht : t' = topic
        · rw [if_pos ht] at hit
          have he' : (dp.toOrdinal, d') = e := Option.some.inj hit
          have := hm ht
          rw [← he']
          exact this
        · rw [if_neg ht] at hit
          exact absurd hit (by simp)
  have hlat : alistLookup topic (buildLatest items) = some (dB.toOrdinal, -1) := by
    unfold buildLatest
    rw [alistLookup_buildFrom]
    exact topicFold_max _ none _ _ hboundEnt (Or.inl rfl)
      (Or.inl ⟨(dB.toOrdinal, -1), hmemEnt, rfl⟩)
  have hmne : buildLatest items ≠ [] := by
    intro hnil
    rw [hnil] at hlat
    exact Option.noConfusion hlat
  have happ : apply_supersede p items =
      items.map (supersedeMark (buildLatest items)) := by
    unfold apply_supersede
    rw [hen]
    simp [hmne]
  have hmarkA : supersedeMark (buildLatest items) A =
      { A with weight := some 0, superseded := some true } := by
    unfold supersedeMark
    rw [hcA, hpA]
    dsimp only
    rw [hlat]
    dsimp only
    rw [if_pos ⟨hlt, by decide⟩]
  have hmarkB : supersedeMark (buildLatest items) B = B := by
    unfold supersedeMark
    rw [hcB, hpB]
    dsimp only
    rw [hlat]
    dsimp only
    rw [if_neg (fun hc => lt_irrefl _ hc.1)]
  refine ⟨?_, ?_, ?_⟩
  · rw [happ, List.get?_map, hA]
    simp only [Option.map_some']
    rw [hmarkA]
  · rw [happ, List.get?_map, hB]
    simp only [Option.map_some']
    rw [hmarkB]
  · rw [happ, List.length_map]

/-- C4 witness: the concrete two-item list (older rate hike, newer rate
cut on the fed policy-rate topic). -/
theorem C4_supersession_marks_older_witness :
    exParams.supersede_enabled = true ∧
    (apply_supersede exParams [exItemHike, exItemCut]).get? 0 =
      some { exItemHike with weight := some 0, superseded := some true } ∧
    (apply_supersede exParams [exItemHike, exItemCut]).get? 1 = some exItemCut ∧
    (apply_supersede exParams [exItemHike, exItemCut]).length = 2 := by
  have hmax : ∀ it ∈ [exItemHike, exItemCut],
      match classify_supersede_topic it.title, parse_published_date it.published_at with
      | some (t', d'), some dp =>
        t' = "fed:policy_rate" →
          dp.toOrdinal ≤ (Date.mk 2026 2 3).toOrdinal ∧
            (dp.toOrdinal = (Date.mk 2026 2 3).toOrdinal → d' = -1)
      | _, _ => True := by
    intro it hit
    simp only [List.mem_cons, List.not_mem_nil, or_false] at hit
    rcases hit with rfl | rfl
    · rw [show classify_supersede_topic exItemHike.title =
          some ("fed:policy_rate", 1) from by decide,
        show parse_published_date exItemHike.published_at =
          some ⟨2026, 2, 1⟩ from by decide]
      intro _
      exact ⟨by decide, by decide⟩
    · rw [show classify_supersede_topic exItemCut.title =
          some ("fed:policy_rate", -1) from by decide,
        show parse_published_date exItemCut.published_at =
          some ⟨2026, 2, 3⟩ from by decide]
      intro _
      exact ⟨by decide, fun _ => rfl⟩
  have h := C4_supersession_marks_older exParams [exItemHike, exItemCut] 0 1
    exItemHike exItemCut "fed:policy_rate" ⟨2026, 2, 1⟩ ⟨2026, 2, 3⟩
    rfl rfl rfl (by decide) (by decide) (by decide) (by decide) (by decide)
    hmax
  exact ⟨rfl, h.1, h.2.1, h.2.2⟩

theorem mem_pyInsert {α : Type} (le : α → α → Bool) (x a : α) :
    ∀ l, a ∈ pyInsert le x l ↔ a = x ∨ a ∈ l := by
  intro l
  induction l with
  | nil => simp [pyInsert]
  | cons y ys ih =>
    unfold pyInsert
    by_cases h : le x y
    · rw [if_pos h]
      simp [List.mem_cons]
    · rw [if_neg h]
      simp only [List.mem_cons, ih]
      tauto

theorem mem_pySort {α : Type} (le : α → α → Bool) (a : α) :
    ∀ l, a ∈ pySort le l ↔ a ∈ l := by
  intro l
  induction l with
  | nil => simp [pySort]
  | cons y ys ih =>
    unfold pySort
    rw [mem_pyInsert]
    simp [ih]

theorem keyLe_total (a b : NItem) : keyLe a b = true ∨ keyLe b a = true := by
  unfold keyLe
  by_cases h1 : (sortKey a).1 < (sortKey b).1
  · left; simp [h1]
  · by_cases h2 : (sortKey b).1 < (sortKey a).1
    · right; simp [h2]
    · have he : (sortKey a).1 = (sortKey b).1 :=
        le_antisymm (not_lt.mp h2) (not_lt.mp h1)
      rcases le_total (sortKey a).2 (sortKey b).2 with h3 | h3
      · left; simp [he, h3]
      · right; simp [he.symm, h3]

theorem keyLe_trans (a b c : NItem) (hab : keyLe a b = true)
    (hbc : keyLe b c = true) : keyLe a c = true := by
  unfold keyLe at *
  simp only [Bool.or_eq_true, Bool.and_eq_true, decide_eq_true_eq] at *
  rcases hab with h1 | ⟨h1, h1'⟩
  · rcases hbc with h2 | ⟨h2, h2'⟩
    · exact Or.inl (lt_trans h1 h2)
    · exact Or.inl (h2 ▸ h1)
  · rcases hbc with h2 | ⟨h2, h2'⟩
    · exact Or.inl (h1 ▸ h2)
    · exact Or.inr ⟨h1.trans h2, le_trans h1' h2'⟩

theorem pairwise_pyInsert (x : NItem) :
    ∀ l, l.Pairwise (fun a b => keyLe a b = true) →
      (pyInsert keyLe x l).Pairwise (fun a b => keyLe a b = true) := by
  intro l
  induction l with
  | nil =>
    intro _
    simp [pyInsert]
  | cons y ys ih =>
    intro hp
    unfold pyInsert
    by_cases h : keyLe x y
    · rw [if_pos h]
      refine List.Pairwise.cons ?_ hp
      intro z hz
      rcases List.mem_cons.mp hz with rfl | hzys
      · exact h
      · exact keyLe_trans x y z h (List.rel_of_pairwise_cons hp hzys)
    · rw [if_neg h]
      have hyx : keyLe y x = true := by
        rcases keyLe_total x y with h' | h'
        · exact absurd h' h
        · exact h'
      refine List.Pairwise.cons ?_ (ih (List.Pairwise.sublist (List.sublist_cons_self y ys) hp))
      intro z hz
      rcases (mem_pyInsert keyLe x z ys).mp hz with rfl | hzys
      · exact hyx
      · exact List.rel_of_pairwise_cons hp hzys

theorem pySort_pairwise :
    ∀ l : List NItem, (pySort keyLe l).Pairwise (fun a b => keyLe a b = true) := by
  intro l
  induction l with
  | nil => simp [pySort]
  | cons y ys ih =>
    unfold pySort
    exact pairwise_pyInsert y _ ih

theorem pySort_eq_of_pairwise :
    ∀ l : List NItem, l.Pairwise (fun a b => keyLe a b = true) →
      pySort keyLe l = l := by
  intro l
  induction l with
  | nil => intro _; rfl
  | cons y ys ih =>
    intro hp
    unfold pySort
    rw [ih (List.Pairwise.sublist (List.sublist_cons_self y ys) hp)]
    cases ys with
    | nil => rfl
    | cons z zs =>
      unfold pyInsert
      rw [if_pos (List.rel_of_pairwise_cons hp (List.mem_cons_self z zs))]


theorem annotateItem_fields (p : WeightParams) (powHalf : ℕ → ℕ → ℚ)
    (date : String) (it : NItem) :
    (annotateItem p powHalf date it).published_at = it.published_at ∧
    (∀ a, (compute_recency_weight p powHalf it.published_at date).2 = some a →
      (annotateItem p powHalf date it).age_days = some a) := by
  unfold annotateItem
  rcases hr : compute_recency_weight p powHalf it.published_at date with ⟨w, ag⟩
  cases ag with
  | none =>
    refine ⟨rfl, ?_⟩
    intro a ha
    exact absurd ha (by simp)
  | some a0 =>
    refine ⟨rfl, ?_⟩
    intro a ha
    simp only at ha
    rw [← ha]

theorem supersedeMark_fields (m : List (String × ℕ × ℤ)) (x : NItem) :
    (supersedeMark m x).published_at = x.published_at ∧
    (supersedeMark m x).age_days = x.age_days ∧
    (supersedeMark m x = x ∨ (supersedeMark m x).weight = some 0) := by
  unfold supersedeMark
  repeat' split
  all_goals first
    | exact ⟨rfl, rfl, Or.inl rfl⟩
    | exact ⟨rfl, rfl, Or.inr rfl⟩

theorem mem_apply_supersede (p : WeightParams) (l : List NItem) (it : NItem)
    (hit : it ∈ apply_supersede p l) :
    ∃ x ∈ l, it.published_at = x.published_at ∧ it.age_days = x.age_days ∧
      (it = x ∨ it.weight = some 0) := by
  unfold apply_supersede at hit
  split at hit
  · exact ⟨it, hit, rfl, rfl, Or.inl rfl⟩
  · dsimp only at hit
    split at hit
    · exact ⟨it, hit, rfl, rfl, Or.inl rfl⟩
    · obtain ⟨x, hx, hmap⟩ := List.mem_map.mp hit
      have hf := supersedeMark_fields (buildLatest l) x
      refine ⟨x, hx, by rw [← hmap]; exact hf.1, by rw [← hmap]; exact hf.2.1, ?_⟩
      rcases hf.2.2 with h | h
      · exact Or.inl (by rw [← hmap, h])
      · exact Or.inr (by rw [← hmap]; exact h)

theorem run1_mem_facts (p : WeightParams) (powHalf : ℕ → ℕ → ℚ)
    (X : List NItem) (date : String) (mi : ℤ) (it : NItem)
    (hit : it ∈ annotate_and_rank_items p powHalf X date mi) :
    (0 < pyOrQ it.weight 0) ∧
    (∀ a, (compute_recency_weight p powHalf it.published_at date).2 = some a →
      it.age_days = some a) := by
  unfold annotate_and_rank_items at hit
  split at hit
  · cases hit
  · dsimp only at hit
    split at hit
    · cases hit
    · have h1 : it ∈ pySort keyLe
          ((apply_supersede p (X.map (annotateItem p powHalf date))).filter
            (fun it => decide (0 < pyOrQ it.weight 0))) :=
        (List.take_sublist _ _).mem hit
      have h2 := (mem_pySort keyLe it _).mp h1
      have hpred : decide (0 < pyOrQ it.weight 0) = true := (List.mem_filter.mp h2).2
      have h3 : it ∈ apply_supersede p (X.map (annotateItem p powHalf date)) :=
        (List.mem_filter.mp h2).1
      obtain ⟨x, hx, hpub, hage, _⟩ := mem_apply_supersede _ _ _ h3
      obtain ⟨x0, _, rfl⟩ := List.mem_map.mp hx
      have hann := annotateItem_fields p powHalf date x0
      refine ⟨of_decide_eq_true hpred, ?_⟩
      intro a ha
      rw [hpub, hann.1] at ha
      rw [hage]
      exact hann.2 a ha

theorem annotateItem_id (p : WeightParams) (powHalf : ℕ → ℕ → ℚ)
    (date : String) (it : NItem)
    (hw : 0 < pyOrQ it.weight 0)
    (hage : ∀ a, (compute_recency_weight p powHalf it.published_at date).2 = some a →
      it.age_days = some a) :
    annotateItem p powHalf date it = it := by
  obtain ⟨t, pa, wo, ad, sp⟩ := it
  dsimp only at hw hage ⊢
  obtain ⟨w, rfl⟩ : ∃ w, wo = some w := by
    cases wo with
    | none => simp [pyOrQ] at hw
    | some w => exact ⟨w, rfl⟩
  have hwne : w ≠ 0 := by
    intro h0
    rw [h0] at hw
    simp [pyOrQ] at hw
  unfold annotateItem
  rcases hr : compute_recency_weight p powHalf pa date with ⟨w0, ag⟩
  cases ag with
  | none =>
    dsimp only
    simp [pyOrQ, hwne]
  | some a =>
    have ha : ad = some a := hage a (by rw [hr])
    dsimp only
    simp [pyOrQ, hwne, ha]

theorem supersedeMark_keep (m : List (String × ℕ × ℤ)) (it : NItem)
    (topic : String) (dir : ℤ) (pub : Date) (lp : ℕ) (ld : ℤ)
    (hc : classify_supersede_topic it.title = some (topic, dir))
    (hp : parse_published_date it.published_at = some pub)
    (hl : alistLookup topic m = some (lp, ld))
    (hcond : ¬(pub.toOrdinal < lp ∧ dir ≠ ld)) :
    supersedeMark m it = it := by
  unfold supersedeMark
  rw [hc]
  dsimp only
  rw [hp]
  dsimp only
  rw [hl]
  dsimp only
  rw [if_neg hcond]

theorem supersedeMark_zero (m : List (String × ℕ × ℤ)) (it : NItem)
    (topic : String) (dir : ℤ) (pub : Date) (lp : ℕ) (ld : ℤ)
    (hc : classify_supersede_topic it.title = some (topic, dir))
    (hp : parse_published_date it.published_at = some pub)
    (hl : alistLookup topic m = some (lp, ld))
    (hcond : pub.toOrdinal < lp ∧ dir ≠ ld) :
    supersedeMark m it = { it with weight := some 0, superseded := some true } := by
  unfold supersedeMark
  rw [hc]
  dsimp only
  rw [hp]
  dsimp only
  rw [hl]
  dsimp only
  rw [if_pos hcond]

theorem c9_annL :
    annotateItem exParams halfPowInt "2026-02-04" c9ItemL = c9ItemL1 := by
  have h2 : (compute_recency_weight exParams halfPowInt c9ItemL.published_at "2026-02-04").2
      = some 1 := by decide
  unfold annotateItem
  rcases hr : compute_recency_weight exParams halfPowInt c9ItemL.published_at "2026-02-04"
    with ⟨w, ag⟩
  rw [hr] at h2
  simp only at h2
  subst h2
  dsimp only
  norm_num [c9ItemL, c9ItemL1, pyOrQ]

theorem c9_annM :
    annotateItem exParams halfPowInt "2026-02-04" c9ItemM = c9ItemM1 := by
  have h2 : (compute_recency_weight exParams halfPowInt c9ItemM.published_at "2026-02-04").2
      = some 1 := by decide
  unfold annotateItem
  rcases hr : compute_recency_weight exParams halfPowInt c9ItemM.published_at "2026-02-04"
    with ⟨w, ag⟩
  rw [hr] at h2
  simp only at h2
  subst h2
  dsimp only
  norm_num [c9ItemM, c9ItemM1, pyOrQ]

theorem c9_annO :
    annotateItem exParams halfPowInt "2026-02-04" c9ItemO = c9ItemO1 := by
  have h2 : (compute_recency_weight exParams halfPowInt c9ItemO.published_at "2026-02-04").2
      = some 3 := by decide
  unfold annotateItem
  rcases hr : compute_recency_weight exParams halfPowInt c9ItemO.published_at "2026-02-04"
    with ⟨w, ag⟩
  rw [hr] at h2
  simp only at h2
  subst h2
  dsimp only
  norm_num [c9ItemO, c9ItemO1, pyOrQ]

theorem c9_bl1 :
    buildLatest [c9ItemL1, c9ItemM1, c9ItemO1] = [("fed:policy_rate", (739650, 1))] := by
  decide

theorem c9_mark1L :
    supersedeMark [("fed:policy_rate", (739650, 1))] c9ItemL1 = c9ItemL1 :=
  supersedeMark_keep _ _ "fed:policy_rate" 1 ⟨2026, 2, 3⟩ 739650 1
    (by decide) (by decide) (by decide) (by decide)

theorem c9_mark1M :
    supersedeMark [("fed:policy_rate", (739650, 1))] c9ItemM1 = c9ItemM1 :=
  supersedeMark_keep _ _ "fed:policy_rate" (-1) ⟨2026, 2, 3⟩ 739650 1
    (by decide) (by decide) (by decide) (by decide)

theorem c9_mark1O :
    supersedeMark [("fed:policy_rate", (739650, 1))] c9ItemO1 = c9ItemO1 :=
  supersedeMark_keep _ _ "fed:policy_rate" 1 ⟨2026, 2, 1⟩ 739650 1
    (by decide) (by decide) (by decide) (by decide)

theorem c9_sup1 :
    apply_supersede exParams [c9ItemL1, c9ItemM1, c9ItemO1]
      = [c9ItemL1, c9ItemM1, c9ItemO1] := by
  unfold apply_supersede
  rw [if_neg (by decide)]
  dsimp only
  rw [c9_bl1]
  rw [if_neg (by decide)]
  rw [List.map_cons, List.map_cons, List.map_cons, List.map_nil,
    c9_mark1L, c9_mark1M, c9_mark1O]

theorem c9_filt1 :
    List.filter (fun it => decide (0 < pyOrQ it.weight 0))
      [c9ItemL1, c9ItemM1, c9ItemO1] = [c9ItemL1, c9ItemM1, c9ItemO1] := by
  norm_num [List.filter, c9ItemL1, c9ItemM1, c9ItemO1, c9ItemL, c9ItemM, c9ItemO, pyOrQ]

theorem c9_keyMO : keyLe c9ItemM1 c9ItemO1 = true := by
  norm_num [keyLe, sortKey, pyOrQ, c9ItemM1, c9ItemM, c9ItemO1, c9ItemO]

theorem c9_keyLM : keyLe c9ItemL1 c9ItemM1 = false := by
  norm_num [keyLe, sortKey, pyOrQ, c9ItemL1, c9ItemL, c9ItemM1, c9ItemM]

theorem c9_keyLO : keyLe c9ItemL1 c9ItemO1 = true := by
  norm_num [keyLe, sortKey, pyOrQ, c9ItemL1, c9ItemL, c9ItemO1, c9ItemO]

theorem c9_keyML : keyLe c9ItemM1 c9ItemL1 = true := by
  norm_num [keyLe, sortKey, pyOrQ, c9ItemM1, c9ItemM, c9ItemL1, c9ItemL]

theorem c9_sort1 :
    pySort keyLe [c9ItemL1, c9ItemM1, c9ItemO1] = [c9ItemM1, c9ItemL1, c9ItemO1] := by
  simp [pySort, pyInsert, c9_keyMO, c9_keyLM, c9_keyLO]

theorem c9_run1 :
    annotate_and_rank_items exParams halfPowInt [c9ItemL, c9ItemM, c9ItemO]
      "2026-02-04" 10 = [c9ItemM1, c9ItemL1, c9ItemO1] := by
  unfold annotate_and_rank_items
  rw [if_neg (by simp)]
  dsimp only
  rw [if_neg (by decide)]
  rw [List.map_cons, List.map_cons, List.map_cons, List.map_nil,
    c9_annL, c9_annM, c9_annO, c9_sup1, c9_filt1, c9_sort1]
  rw [List.take_of_length_le (by decide)]

theorem c9_ann2M :
    annotateItem exParams halfPowInt "2026-02-04" c9ItemM1 = c9ItemM1 := by
  apply annotateItem_id
  · norm_num [c9ItemM1, c9ItemM, pyOrQ]
  · intro a ha
    rw [show (compute_recency_weight exParams halfPowInt c9ItemM1.published_at
      "2026-02-04").2 = some 1 from by decide] at ha
    cases ha
    rfl

theorem c9_ann2L :
    annotateItem exParams halfPowInt "2026-02-04" c9ItemL1 = c9ItemL1 := by
  apply annotateItem_id
  · norm_num [c9ItemL1, c9ItemL, pyOrQ]
  · intro a ha
    rw [show (compute_recency_weight exParams halfPowInt c9ItemL1.published_at
      "2026-02-04").2 = some 1 from by decide] at ha
    cases ha
    rfl

theorem c9_ann2O :
    annotateItem exParams halfPowInt "2026-02-04" c9ItemO1 = c9ItemO1 := by
  apply annotateItem_id
  · norm_num [c9ItemO1, c9ItemO, pyOrQ]
  · intro a ha
    rw [show (compute_recency_weight exParams halfPowInt c9ItemO1.published_at
      "2026-02-04").2 = some 3 from by decide] at ha
    cases ha
    rfl

theorem c9_bl2 :
    buildLatest [c9ItemM1, c9ItemL1, c9ItemO1] = [("fed:policy_rate", (739650, -1))] := by
  decide

theorem c9_mark2M :
    supersedeMark [("fed:policy_rate", (739650, -1))] c9ItemM1 = c9ItemM1 :=
  supersedeMark_keep _ _ "fed:policy_rate" (-1) ⟨2026, 2, 3⟩ 739650 (-1)
    (by decide) (by decide) (by decide) (by decide)

theorem c9_mark2L :
    supersedeMark [("fed:policy_rate", (739650, -1))] c9ItemL1 = c9ItemL1 :=
  supersedeMark_keep _ _ "fed:policy_rate" 1 ⟨2026, 2, 3⟩ 739650 (-1)
    (by decide) (by decide) (by decide) (by decide)

theorem c9_mark2O :
    supersedeMark [("fed:policy_rate", (739650, -1))] c9ItemO1 = c9ItemO2 :=
  supersedeMark_zero _ _ "fed:policy_rate" 1 ⟨2026, 2, 1⟩ 739650 (-1)
    (by decide) (by decide) (by decide) (by decide)

theorem c9_sup2 :
    apply_supersede exParams [c9ItemM1, c9ItemL1, c9ItemO1]
      = [c9ItemM1, c9ItemL1, c9ItemO2] := by
  unfold apply_supersede
  rw [if_neg (by decide)]
  dsimp only
  rw [c9_bl2]
  rw [if_neg (by decide)]
  rw [List.map_cons, List.map_cons, List.map_cons, List.map_nil,
    c9_mark2M, c9_mark2L, c9_mark2O]

theorem c9_filt2 :
    List.filter (fun it => decide (0 < pyOrQ it.weight 0))
      [c9ItemM1, c9ItemL1, c9ItemO2] = [c9ItemM1, c9ItemL1] := by
  norm_num [List.filter, c9ItemM1, c9ItemM, c9ItemL1, c9ItemL, c9ItemO2, c9ItemO1,
    c9ItemO, pyOrQ]

theorem c9_sort2 :
    pySort keyLe [c9ItemM1, c9ItemL1] = [c9ItemM1, c9ItemL1] := by
  simp [pySort, pyInsert, c9_keyML]

theorem c9_run2 :
    annotate_and_rank_items exParams halfPowInt [c9ItemM1, c9ItemL1, c9ItemO1]
      "2026-02-04" 10 = [c9ItemM1, c9ItemL1] := by
  unfold annotate_and_rank_items
  rw [if_neg (by simp)]
  dsimp only
  rw [if_neg (by decide)]
  rw [List.map_cons, List.map_cons, List.map_cons, List.map_nil,
    c9_ann2M, c9_ann2L, c9_ann2O, c9_sup2, c9_filt2, c9_sort2]
  rw [List.take_of_length_le (by decide)]

/-- C9 (counterexample): the claimed idempotence fails.  With supersession
enabled and reference date 2026-02-04, the items [L, M, O] above pass the
first run untouched (L, the first item carrying the tying latest date
2026-02-03, wins the latest-direction race, so nothing is superseded) but
come out reordered by weight as [M, L, O]; on the re-run M wins the race,
its direction differs from O's, and O is zeroed and filtered out, so the
second output [M, L] differs from the first. -/
theorem C9_counterexample :
    annotate_and_rank_items exParams halfPowInt
        (annotate_and_rank_items exParams halfPowInt [c9ItemL, c9ItemM, c9ItemO]
          "2026-02-04" 10) "2026-02-04" 10
      ≠ annotate_and_rank_items exParams halfPowInt [c9ItemL, c9ItemM, c9ItemO]
          "2026-02-04" 10 := by
  rw [c9_run1, c9_run2]
  simp

theorem run1_pairwise (p : WeightParams) (powHalf : ℕ → ℕ → ℚ)
    (X : List NItem) (date : String) (mi : ℤ) :
    (annotate_and_rank_items p powHalf X date mi).Pairwise
      (fun a b => keyLe a b = true) := by
  unfold annotate_and_rank_items
  split
  · exact List.Pairwise.nil
  · dsimp only
    split
    · exact List.Pairwise.nil
    · exact List.Pairwise.sublist (List.take_sublist _ _) (pySort_pairwise _)

theorem run1_length_le (p : WeightParams) (powHalf : ℕ → ℕ → ℚ)
    (X : List NItem) (date : String) (mi : ℤ) :
    (annotate_and_rank_items p powHalf X date mi).length ≤ (max 0 mi).toNat := by
  unfold annotate_and_rank_items
  split
  · simp
  · dsimp only
    split
    · simp
    · exact List.length_take_le _ _

theorem run2_map_eq (p : WeightParams) (powHalf : ℕ → ℕ → ℚ)
    (X : List NItem) (date : String) (mi : ℤ) :
    (annotate_and_rank_items p powHalf X date mi).map (annotateItem p powHalf date)
      = annotate_and_rank_items p powHalf X date mi := by
  have h : ∀ it ∈ annotate_and_rank_items p powHalf X date mi,
      annotateItem p powHalf date it = id it := by
    intro it hit
    obtain ⟨hw, hage⟩ := run1_mem_facts p powHalf X date mi it hit
    exact annotateItem_id p powHalf date it hw hage
  rw [List.map_congr_left h, List.map_id]

theorem filter_mark_sublist (f : NItem → NItem) (l : List NItem) :
    (∀ it ∈ l, 0 < pyOrQ it.weight 0) →
    (∀ x ∈ l, f x = x ∨ (f x).weight = some 0) →
    List.Sublist ((l.map f).filter (fun it => decide (0 < pyOrQ it.weight 0))) l := by
  induction l with
  | nil => intro _ _; simp
  | cons y ys ih =>
    intro hl hf
    have ht := ih (fun it h => hl it (List.mem_cons_of_mem y h))
      (fun x h => hf x (List.mem_cons_of_mem y h))
    rcases hf y (List.mem_cons_self y ys) with h | h
    · have htrue : (fun it => decide (0 < pyOrQ it.weight 0)) y = true :=
        decide_eq_true (hl y (List.mem_cons_self y ys))
      rw [List.map_cons, h, List.filter_cons, if_pos htrue]
      exact ht.cons₂ y
    · have hfalse : ¬ (fun it => decide (0 < pyOrQ it.weight 0)) (f y) = true := by
        norm_num [pyOrQ, h]
      rw [List.map_cons, List.filter_cons, if_neg hfalse]
      exact ht.cons y

theorem filter_supersede_sublist (p : WeightParams) (l : List NItem)
    (hl : ∀ it ∈ l, 0 < pyOrQ it.weight 0) :
    List.Sublist
      ((apply_supersede p l).filter (fun it => decide (0 < pyOrQ it.weight 0))) l := by
  unfold apply_supersede
  split
  · rw [List.filter_eq_self.mpr (fun a ha => decide_eq_true (hl a ha))]
  · dsimp only
    split
    · rw [List.filter_eq_self.mpr (fun a ha => decide_eq_true (hl a ha))]
    · exact filter_mark_sublist _ l hl (fun x _ => (supersedeMark_fields _ x).2.2)

/-- C9 (amended): re-running `_annotate_and_rank_items` on its own output
never re-applies decay or fresh boost — every surviving item has a positive
weight, which wins the `weight or w` fallback of the annotation step, and
its recorded `age_days` is recomputed to the same value, so the annotation
pass is the identity on the output — and the re-run returns a sublist of
that output: the same items with the same weights in the same order, except
that the order-dependent latest-item race of the supersession step may zero
(and the filter then drop) further items, as the counterexample shows; the
output is not always returned unchanged. -/
theorem C9_rerun_sublist (p : WeightParams) (powHalf : ℕ → ℕ → ℚ)
    (X : List NItem) (date : String) (mi : ℤ) :
    List.Sublist
      (annotate_and_rank_items p powHalf
        (annotate_and_rank_items p powHalf X date mi) date mi)
      (annotate_and_rank_items p powHalf X date mi) := by
  have hpw := run1_pairwise p powHalf X date mi
  have hlen := run1_length_le p powHalf X date mi
  have hmap := run2_map_eq p powHalf X date mi
  have hmem := run1_mem_facts p powHalf X date mi
  generalize hA : annotate_and_rank_items p powHalf X date mi = A at hpw hlen hmap hmem
  unfold annotate_and_rank_items
  split
  · exact List.nil_sublist A
  · dsimp only
    split
    · exact List.nil_sublist A
    · rw [hmap]
      have hZ : List.Sublist ((apply_supersede p A).filter
          (fun it => decide (0 < pyOrQ it.weight 0))) A :=
        filter_supersede_sublist p A (fun it hit => (hmem it hit).1)
      rw [pySort_eq_of_pairwise _ (List.Pairwise.sublist hZ hpw)]
      rw [List.take_of_length_le (hZ.length_le.trans hlen)]
      exact hZ


end SentiX
